import Mathlib

/-!
# word2pdf-app: the `POST /convert` handler of `main.go`

A shallow embedding of the request handler registered by `main` for
`POST /convert`, together with the pieces of the Go standard library it calls
(`filepath.Ext`, `strings.ToLower`, `strings.TrimSuffix`, `filepath.Base`,
`filepath.Clean`, `filepath.Join`) for a Unix target, where the path separator
is `/`.

The handler is stateful: it creates a temporary directory, writes the upload
into it, runs an external converter, probes for the converter's output and
removes the directory again.  The embedding passes the file table explicitly
and takes every answer of the outside world (the result of `os.MkdirTemp`,
failures of `os.Create`, `io.Copy` and `os.Open`, and the whole behaviour of
the converter process) from an environment record, so that a theorem
quantified over the environment covers every run of the handler.  Next to the
response and the final file table, a run records the system calls it made.

The handler reads the upload through `FormFile`, which hands it the filename
as the multipart parser delivers it: the client's `filename` parameter passed
through `filepath.Base`.  `os.Stat` has three outcomes for the handler: no
error, a not-exist error, and any other error.

Left out: the log lines, the `Close` calls, the CORS middleware and the
`/health` route, which take no part in the properties below, and the
buffering the multipart parser does before the handler sees the filename and
the bytes.
-/

namespace Word2Pdf

/-! ## Strings and paths -/

/-- Scan of `filepath.Ext`, from the last byte of the path towards the first:
`rev` holds the bytes not yet visited (last byte first), `acc` the bytes
already passed.  The scan stops without a result at a path separator and
returns the suffix that starts at the first dot it meets. -/
def extScan : List Char → List Char → List Char
  | [], _ => []
  | c :: rev, acc =>
    if c = '/' then []
    else if c = '.' then '.' :: acc
    else extScan rev (c :: acc)

/-- Go `filepath.Ext`: the suffix beginning at the final dot in the final
element of the path, empty if there is no dot. -/
def Ext (path : String) : String :=
  ⟨extScan path.data.reverse []⟩

/-- Go `strings.ToLower` on the ASCII range.  Runes outside ASCII are left as
they are; no rune outside ASCII lower-cases to one of the letters that occur
in the allow-list of extensions. -/
def ToLower (s : String) : String :=
  ⟨s.data.map Char.toLower⟩

/-- Go `strings.HasSuffix`. -/
def HasSuffix (s suffix : String) : Bool :=
  suffix.data.isSuffixOf s.data

/-- Go `strings.TrimSuffix`: `s` without the trailing `suffix`, and `s` itself
when it does not end in `suffix`. -/
def TrimSuffix (s suffix : String) : String :=
  if HasSuffix s suffix then ⟨s.data.take (s.data.length - suffix.data.length)⟩ else s

/-- Go `filepath.Base`: the last element of the path, after removing trailing
separators; `.` for the empty path and `/` for a path made of separators. -/
def Base (path : String) : String :=
  if path.data = [] then "."
  else
    let stripped := path.data.reverse.dropWhile (fun c => c = '/')
    let last := (stripped.takeWhile (fun c => c ≠ '/')).reverse
    if last = [] then "/" else ⟨last⟩

/-- The elements of a path: the pieces between separators (some may be
empty). -/
def splitSlash : List Char → List (List Char)
  | [] => [[]]
  | c :: cs =>
    if c = '/' then [] :: splitSlash cs
    else
      match splitSlash cs with
      | [] => [[c]]
      | e :: es => (c :: e) :: es

/-- One element of the scan of `filepath.Clean`.  `stack` holds the elements
kept so far, the last one first.  Empty and `.` elements are dropped; `..`
removes the element before it when that is a name, is dropped at the root, and
is kept at the start of a relative path; a name is kept. -/
def cleanStep (rooted : Bool) (stack : List (List Char)) (e : List Char) : List (List Char) :=
  if e = [] ∨ e = ['.'] then stack
  else if e = ['.', '.'] then
    match stack with
    | [] => if rooted then [] else [e]
    | top :: rest => if top = ['.', '.'] then e :: stack else rest
  else e :: stack

/-- A path starts at the root when its first byte is the separator. -/
def isRooted (path : List Char) : Bool :=
  path.head? = some '/'

/-- The elements that `filepath.Clean` keeps, first one first. -/
def cleanElems (path : List Char) : List (List Char) :=
  ((splitSlash path).foldl (cleanStep (isRooted path)) []).reverse

/-- The kept elements written out with single separators between them. -/
def joinElems : List (List Char) → List Char
  | [] => []
  | [e] => e
  | e :: es => e ++ '/' :: joinElems es

/-- Go `filepath.Clean`: the shortest path naming the same entry, by purely
lexical processing.  The result is `.` for what would be the empty string. -/
def Clean (path : String) : String :=
  if isRooted path.data then ⟨'/' :: joinElems (cleanElems path.data)⟩
  else if cleanElems path.data = [] then "."
  else ⟨joinElems (cleanElems path.data)⟩

/-- Go `filepath.Join` of two elements: empty elements are ignored, the rest
is joined with the separator and cleaned. -/
def Join (a b : String) : String :=
  if a.data ≠ [] then Clean (a ++ "/" ++ b)
  else if b.data ≠ [] then Clean b
  else ""

/-- A name: an element that `filepath.Clean` keeps as it is. -/
def isName (e : List Char) : Prop :=
  e ≠ [] ∧ e ≠ ['.'] ∧ e ≠ ['.', '.'] ∧ '/' ∉ e

/-- The shape of the stack during the scan of `filepath.Clean`: names on top
of `..` elements, and no `..` element at all in a rooted path. -/
def StackOk (rooted : Bool) : List (List Char) → Prop
  | [] => True
  | e :: rest =>
    StackOk rooted rest ∧
      (isName e ∨ (e = ['.', '.'] ∧ rooted = false ∧ ∀ x ∈ rest, x = ['.', '.']))

/-- Whether the entry named by `p` lies strictly below the directory named by
`dir`: both start at the root or both do not, and the cleaned elements of
`dir` are a proper prefix of the cleaned elements of `p`. -/
def isInside (dir p : String) : Bool :=
  (isRooted dir.data == isRooted p.data) &&
    (cleanElems dir.data).isPrefixOf (cleanElems p.data) &&
    decide ((cleanElems dir.data).length < (cleanElems p.data).length)

/-- Whether two path strings name the same entry. -/
def samePath (p q : String) : Bool :=
  Clean p == Clean q

/-! ## The outside world -/

/-- File contents and response bodies: a list of bytes, each a number below
256. -/
abbrev Bytes := List Nat

/-- An entry of the file table. -/
inductive Node where
  | dir
  | file (content : Bytes)
  deriving DecidableEq, Repr

/-- The file table, keyed by path.  Permissions, links and limits on name
length are not part of the table. -/
abbrev FS := String → Option Node

/-- The entry a path string names: the one stored under its cleaned form. -/
def FS.lookup (fs : FS) (path : String) : Option Node :=
  fs (Clean path)

/-- The table with the entry named by `path` replaced. -/
def FS.store (fs : FS) (path : String) (n : Node) : FS :=
  fun k => if k = Clean path then some n else fs k

/-- Go `os.RemoveAll`: removes the entry named by `path` and everything below
it.  The handler discards its error result; the table has no permissions that
could make the removal fail. -/
def RemoveAll (fs : FS) (path : String) : FS :=
  fun k => if samePath k path || isInside path k then none else fs k

/-- Result of `c.Request.FormFile("file")` when it succeeds: the declared
filename (`header.Filename`) and the uploaded bytes. -/
structure Upload where
  filename : String
  content : Bytes
  deriving DecidableEq, Repr

/-- A `POST /convert` request as the handler reads it; `formFile` is `none`
when `FormFile` returns an error. -/
structure Request where
  formFile : Option Upload
  deriving DecidableEq, Repr

/-- The part named `file` of a multipart request as the client sent it: the
`filename` parameter of its `Content-Disposition` header and its bytes. -/
structure FilePart where
  filename : String
  content : Bytes
  deriving DecidableEq, Repr

/-- Go `(*multipart.Part).FileName` (Go 1.17 and later; the handler's
`os.MkdirTemp` needs Go 1.16 or later): the `filename` parameter passed
through `filepath.Base` when it is not empty. -/
def FileName (part : FilePart) : String :=
  if part.filename.data = [] then "" else Base part.filename

/-- Go `(*http.Request).FormFile("file")`: what the handler reads from a
request whose part named `file`, if any, is `part`.  A missing part and a part
without a filename give the error `http.ErrMissingFile`; otherwise
`header.Filename` is the part's `FileName()`. -/
def FormFile (part : Option FilePart) : Request :=
  match part with
  | none => ⟨none⟩
  | some p => if (FileName p).data = [] then ⟨none⟩ else ⟨some ⟨FileName p, p.content⟩⟩

/-- What `cmd.CombinedOutput()` leaves behind: the file table after the run,
whether the returned error is nil, and the captured output. -/
structure ConvResult where
  fs : FS
  ok : Bool
  output : String

/-- The answers of the outside world during one request. -/
structure Env where
  /-- Result of `os.MkdirTemp("", "word2pdf")`, `none` for an error. -/
  mkdirTemp : Option String
  /-- Whether `os.Create(inputPath)` returns an error. -/
  createFails : Bool
  /-- `io.Copy(dst, file)`: `none` when it completes, `some n` when it fails
  after `n` bytes. -/
  saveFault : Option Nat
  /-- The converter process, given its arguments and the file table. -/
  converter : List String → FS → ConvResult
  /-- Whether `os.Stat` on a path fails with an error other than not-exist
  (a name that is too long, a directory that may not be searched). -/
  statFails : String → Bool
  /-- Whether `os.Open(outputPath)` returns an error. -/
  openFails : Bool
  /-- `io.Copy(c.Writer, pdfFile)`: `none` when it completes, `some n` when it
  fails after `n` bytes. -/
  sendFault : Option Nat

/-- What the handler does to the response, in order. -/
inductive Action where
  /-- `c.Header(key, value)` -/
  | header (key value : String)
  /-- `c.JSON(code, gin.H{"error": error, "details": details})` -/
  | json (code : Nat) (error : String) (details : Option String)
  /-- Bytes copied to `c.Writer`. -/
  | write (body : Bytes)
  deriving DecidableEq, Repr

/-- The calls the handler makes to the operating system, in order. -/
inductive Call where
  | mkdirTemp (result : Option String)
  | create (path : String)
  | copyIn (path : String)
  | exec (name : String) (args : List String)
  | stat (path : String)
  | openFile (path : String)
  | copyOut (path : String)
  | removeAll (path : String)
  deriving DecidableEq, Repr

/-- A finished request: the response, the file table left behind and the
system calls made. -/
structure Outcome where
  response : List Action
  fs : FS
  calls : List Call

/-- The HTTP status of a response: the code of the first `c.JSON`, unless body
bytes were sent before it, in which case the status 200 is already on the
wire; 200 when the handler returns without an error. -/
def status : List Action → Nat
  | [] => 200
  | Action.header _ _ :: rest => status rest
  | Action.json code _ _ :: _ => code
  | Action.write body :: rest => if body = [] then status rest else 200

/-- The value of a response header: the last one set under that key. -/
def headerValue (key : String) : List Action → Option String
  | [] => none
  | Action.header k v :: rest =>
    match headerValue key rest with
    | some w => some w
    | none => if k = key then some v else none
  | _ :: rest => headerValue key rest

/-- The bytes sent as response body. -/
def bodyBytes : List Action → Bytes
  | [] => []
  | Action.write body :: rest => body ++ bodyBytes rest
  | _ :: rest => bodyBytes rest

/-! ## The handler -/

/-- The map literal `supportedTypes` of the handler. -/
def supportedTypes : List (String × Bool) :=
  [(".doc", true), (".docx", true), (".xls", true), (".xlsx", true),
   (".ppt", true), (".pptx", true)]

/-- The map index expression `supportedTypes[ext]`: `false` for a missing
key. -/
def supported (ext : String) : Bool :=
  (supportedTypes.lookup ext).getD false

/-- Line 65: `ext := strings.ToLower(filepath.Ext(header.Filename))`. -/
def ext (filename : String) : String :=
  ToLower (Ext filename)

/-- Line 101: `inputPath := filepath.Join(tempDir, header.Filename)`. -/
def inputPath (tempDir filename : String) : String :=
  Join tempDir filename

/-- Line 102: the first output candidate,
`filepath.Join(tempDir, strings.TrimSuffix(header.Filename, ext)+"_output.pdf")`. -/
def outputPath (tempDir filename : String) : String :=
  Join tempDir (TrimSuffix filename (ext filename) ++ "_output.pdf")

/-- Line 153: the second output candidate,
`filepath.Join(tempDir, strings.TrimSuffix(filepath.Base(header.Filename), ext)+".pdf")`. -/
def altOutputPath (tempDir filename : String) : String :=
  Join tempDir (TrimSuffix (Base filename) (ext filename) ++ ".pdf")

/-- Line 182: the value of the `Content-Disposition` header. -/
def contentDisposition (filename : String) : String :=
  "attachment; filename=" ++ (TrimSuffix filename (ext filename) ++ ".pdf")

/-- Line 131: the arguments of `exec.Command("libreoffice", ...)`. -/
def convertArgs (tempDir inputPath : String) : List String :=
  ["--headless", "--convert-to", "pdf", "--outdir", tempDir, inputPath]

/-- Line 57: the invalid-request error, "no file uploaded". -/
def errNoFile : String := "未上传文件"

/-- Line 81: the unsupported-type error. -/
def errUnsupported : String := "不支持的文件类型。请上传Word、Excel或PowerPoint文件。"

/-- Line 93: the staging directory could not be created. -/
def errMkdirTemp : String := "创建临时目录失败"

/-- Line 112: the staged file could not be created. -/
def errCreate : String := "创建临时文件失败"

/-- Line 123: the upload could not be saved. -/
def errSave : String := "保存上传文件失败"

/-- Line 138: the conversion-failure error. -/
def errConvert : String := "文件转换为PDF失败"

/-- Line 158: the output-not-found error. -/
def errNotFound : String := "未找到转换后的PDF文件"

/-- Line 173: the converted file could not be opened. -/
def errOpen : String := "打开转换后的PDF文件失败"

/-- Line 190: the converted file could not be sent. -/
def errSend : String := "发送PDF文件失败"

/-- Lines 181 to 183: the three headers of a PDF response. -/
def pdfHeaders (filename : String) : List Action :=
  [Action.header "Content-Description" "File Transfer",
   Action.header "Content-Disposition" (contentDisposition filename),
   Action.header "Content-Type" "application/pdf"]

/-- Lines 167 to 194: open the located file, set the headers and copy the
bytes to the response.  A missing entry cannot be opened; a directory can be
opened, but reading from it fails. -/
def sendFile (env : Env) (filename path : String) (fs : FS) : List Action × List Call :=
  if env.openFails then ([Action.json 500 errOpen none], [Call.openFile path])
  else
    match fs.lookup path with
    | none => ([Action.json 500 errOpen none], [Call.openFile path])
    | some Node.dir =>
      (pdfHeaders filename ++ [Action.json 500 errSend none],
        [Call.openFile path, Call.copyOut path])
    | some (Node.file content) =>
      match env.sendFault with
      | none =>
        (pdfHeaders filename ++ [Action.write content],
          [Call.openFile path, Call.copyOut path])
      | some n =>
        (pdfHeaders filename ++ [Action.write (content.take n), Action.json 500 errSend none],
          [Call.openFile path, Call.copyOut path])

/-- Lines 150 and 155: `os.Stat(path)` followed by `os.IsNotExist(err)`.  The
test holds exactly when the call fails because nothing is stored under the
path; a call that fails for another reason is not a not-exist error, and a
call that succeeds has no error at all. -/
def statNotExist (env : Env) (fs : FS) (path : String) : Bool :=
  !env.statFails path && (fs.lookup path).isNone

/-- Lines 148 to 165: the path the handler settles on after a successful
converter run, and the `os.Stat` calls made on the way; `none` when both
calls report not-exist.  The handler moves on to the second candidate only
when the first call reports not-exist; on any other outcome of the first call
it keeps the first candidate. -/
def locate (env : Env) (tempDir filename : String) (fs : FS) : Option String × List Call :=
  if statNotExist env fs (outputPath tempDir filename) then
    if statNotExist env fs (altOutputPath tempDir filename) then
      (none, [Call.stat (outputPath tempDir filename), Call.stat (altOutputPath tempDir filename)])
    else
      (some (altOutputPath tempDir filename),
        [Call.stat (outputPath tempDir filename), Call.stat (altOutputPath tempDir filename)])
  else (some (outputPath tempDir filename), [Call.stat (outputPath tempDir filename)])

/-- Lines 148 to 194: locate the output and send it. -/
def respond (env : Env) (tempDir filename : String) (fs : FS) : List Action × List Call :=
  match locate env tempDir filename fs with
  | (none, stats) => ([Action.json 500 errNotFound none], stats)
  | (some path, stats) =>
    ((sendFile env filename path fs).1, stats ++ (sendFile env filename path fs).2)

/-- Lines 100 to 194: what the handler does between the creation of the
staging directory and its removal. -/
def staged (env : Env) (up : Upload) (tempDir : String) (fs : FS) : Outcome :=
  if env.createFails then
    ⟨[Action.json 500 errCreate none], fs, [Call.create (inputPath tempDir up.filename)]⟩
  else
    match env.saveFault with
    | some n =>
      ⟨[Action.json 500 errSave none],
        fs.store (inputPath tempDir up.filename) (Node.file (up.content.take n)),
        [Call.create (inputPath tempDir up.filename), Call.copyIn (inputPath tempDir up.filename)]⟩
    | none =>
      let args := convertArgs tempDir (inputPath tempDir up.filename)
      let run := env.converter args
        (fs.store (inputPath tempDir up.filename) (Node.file up.content))
      let before := [Call.create (inputPath tempDir up.filename),
        Call.copyIn (inputPath tempDir up.filename), Call.exec "libreoffice" args]
      if run.ok then
        ⟨(respond env tempDir up.filename run.fs).1, run.fs,
          before ++ (respond env tempDir up.filename run.fs).2⟩
      else
        ⟨[Action.json 500 errConvert (some run.output)], run.fs, before⟩

/-- The handler registered for `POST /convert` (lines 50 to 195).  The
deferred `os.RemoveAll(tempDir)` runs on every return after the staging
directory was created. -/
def convertHandler (env : Env) (req : Request) (fs : FS) : Outcome :=
  match req.formFile with
  | none => ⟨[Action.json 400 errNoFile none], fs, []⟩
  | some up =>
    if supported (ext up.filename) then
      match env.mkdirTemp with
      | none => ⟨[Action.json 500 errMkdirTemp none], fs, [Call.mkdirTemp none]⟩
      | some tempDir =>
        let r := staged env up tempDir (fs.store tempDir Node.dir)
        ⟨r.response, RemoveAll r.fs tempDir,
          Call.mkdirTemp (some tempDir) :: r.calls ++ [Call.removeAll tempDir]⟩
    else ⟨[Action.json 400 errUnsupported none], fs, []⟩

/-! ## Sample worlds -/

/-- A file table holding the directory `/tmp` and nothing else. -/
def tmpOnly : FS :=
  fun k => if k = "/tmp" then some Node.dir else none

/-- A converter that behaves like the real one: it exits zero and writes the
PDF into the output directory under the base name of its input with the
extension replaced by `.pdf`. -/
def stemConverter (pdf : Bytes) (args : List String) (fs : FS) : ConvResult :=
  match args with
  | [_, _, _, _, outdir, input] =>
    ⟨fs.store (Join outdir (TrimSuffix (Base input) (Ext input) ++ ".pdf")) (Node.file pdf),
      true, "convert " ++ input⟩
  | _ => ⟨fs, false, "usage"⟩

/-- A converter that exits zero and writes the PDF into the output directory
under the base name of its input with the extension replaced by
`_output.pdf`. -/
def outputConverter (pdf : Bytes) (args : List String) (fs : FS) : ConvResult :=
  match args with
  | [_, _, _, _, outdir, input] =>
    ⟨fs.store (Join outdir (TrimSuffix (Base input) (Ext input) ++ "_output.pdf"))
      (Node.file pdf), true, "convert " ++ input⟩
  | _ => ⟨fs, false, "usage"⟩

/-- A converter stub that exits non-zero with a diagnostic and writes
nothing. -/
def failingConverter (_args : List String) (fs : FS) : ConvResult :=
  ⟨fs, false, "Error: source file could not be loaded"⟩

/-- A world without faults: the staging directory is `/tmp/word2pdf1`. -/
def calmEnv (converter : List String → FS → ConvResult) : Env :=
  ⟨some "/tmp/word2pdf1", false, none, converter, fun _ => false, false, none⟩

/-- The converter run of a request whose upload was staged in `tempDir`: the
converter is started on the file table that holds the staging directory and
the saved upload. -/
def converterRun (env : Env) (fs : FS) (tempDir : String) (up : Upload) : ConvResult :=
  env.converter (convertArgs tempDir (inputPath tempDir up.filename))
    ((fs.store tempDir Node.dir).store (inputPath tempDir up.filename) (Node.file up.content))

/-- The file table on which the converter of a request is started. -/
def stagedTable (fs : FS) (tempDir : String) (up : Upload) : FS :=
  (fs.store tempDir Node.dir).store (inputPath tempDir up.filename) (Node.file up.content)

/-! ## Words of the specification -/

/-- The allow-list of extensions named by the specification. -/
def allowList : List String :=
  [".doc", ".docx", ".xls", ".xlsx", ".ppt", ".pptx"]

/-- The suffix of a name that starts at its last dot, empty when the name has
no dot. -/
def lastDotSuffix : List Char → List Char
  | [] => []
  | c :: cs =>
    if '.' ∈ cs then lastDotSuffix cs
    else if c = '.' then c :: cs
    else []

/-- The extension of a filename in the words of the specification: the suffix
starting at the last dot of the name, empty when there is none. -/
def specExt (filename : String) : String :=
  ⟨lastDotSuffix filename.data⟩

/-- The stem of a filename in the words of the specification: the filename
without its extension. -/
def stem (filename : String) : String :=
  ⟨filename.data.take (filename.data.length - (Ext filename).data.length)⟩

/-- The converter's side of its contract with the handler (specification,
section 6): a run leaves the file table as it was, except that it may write
`<stem>_output.pdf` or `<stem>.pdf` into the output directory, where the stem
is the name of the input file without its extension. -/
def honoursContract (env : Env) (fs : FS) (tempDir : String) (up : Upload) : Prop :=
  ∀ k, (converterRun env fs tempDir up).fs k ≠ stagedTable fs tempDir up k →
    k = Join tempDir (stem up.filename ++ "_output.pdf") ∨
      k = Join tempDir (stem up.filename ++ ".pdf")

/-- The staging directory is new: before `os.MkdirTemp` created it, the file
table held nothing below it. -/
def freshDir (fs : FS) (tempDir : String) : Prop :=
  ∀ k, isInside tempDir k = true → fs k = none

/-- The handler took its success exit: it never called `c.JSON`. -/
def succeeded (response : List Action) : Bool :=
  response.all fun a =>
    match a with
    | Action.json _ _ _ => false
    | _ => true

/-! ## Facts about the handler -/

theorem supported_iff (e : String) : supported e = true ↔ e ∈ allowList := by
  unfold supported supportedTypes allowList
  simp only [List.lookup]
  constructor
  · intro h
    by_cases h1 : e = ".doc"
    · simp [h1]
    by_cases h2 : e = ".docx"
    · simp [h2]
    by_cases h3 : e = ".xls"
    · simp [h3]
    by_cases h4 : e = ".xlsx"
    · simp [h4]
    by_cases h5 : e = ".ppt"
    · simp [h5]
    by_cases h6 : e = ".pptx"
    · simp [h6]
    simp [beq_eq_false_iff_ne.mpr h1, beq_eq_false_iff_ne.mpr h2, beq_eq_false_iff_ne.mpr h3,
      beq_eq_false_iff_ne.mpr h4, beq_eq_false_iff_ne.mpr h5, beq_eq_false_iff_ne.mpr h6] at h
  · intro h
    simp only [List.mem_cons, List.mem_singleton, List.not_mem_nil, or_false] at h
    rcases h with h | h | h | h | h | h <;> subst h <;> decide

theorem sendFile_response_ne (env : Env) (filename path : String) (fs : FS) :
    (sendFile env filename path fs).1 ≠ [Action.json 400 errUnsupported none] ∧
    (sendFile env filename path fs).1 ≠ [Action.json 500 errNotFound none] := by
  unfold sendFile pdfHeaders
  split
  · simp [errOpen, errUnsupported, errNotFound]
  · split
    · simp [errOpen, errUnsupported, errNotFound]
    · simp
    · split <;> simp

/-! ## Facts about paths -/

theorem splitSlash_ne_nil (l : List Char) : splitSlash l ≠ [] := by
  cases l with
  | nil => simp [splitSlash]
  | cons c cs =>
    unfold splitSlash
    split
    · simp
    · split <;> simp

theorem splitSlash_append (a b : List Char) :
    splitSlash (a ++ '/' :: b) = splitSlash a ++ splitSlash b := by
  induction a with
  | nil => simp [splitSlash]
  | cons c cs ih =>
    by_cases hc : c = '/'
    · simp [splitSlash, hc, ih]
    · have hne := splitSlash_ne_nil cs
      cases hs : splitSlash cs with
      | nil => exact absurd hs hne
      | cons e es => simp [splitSlash, hc, ih, hs]

theorem splitSlash_of_no_slash (e : List Char) (h : '/' ∉ e) : splitSlash e = [e] := by
  induction e with
  | nil => rfl
  | cons c cs ih =>
    have hc : c ≠ '/' := fun hc => h (by simp [hc])
    have hcs : '/' ∉ cs := fun hcs => h (List.mem_cons_of_mem _ hcs)
    simp [splitSlash, hc, ih hcs]

theorem no_slash_of_mem_splitSlash (l e : List Char) (h : e ∈ splitSlash l) : '/' ∉ e := by
  induction l generalizing e with
  | nil =>
    simp [splitSlash] at h
    simp [h]
  | cons c cs ih =>
    by_cases hc : c = '/'
    · simp only [splitSlash, hc, if_true, List.mem_cons] at h
      rcases h with h | h
      · simp [h]
      · exact ih e h
    · cases hs : splitSlash cs with
      | nil => exact absurd hs (splitSlash_ne_nil cs)
      | cons e1 es =>
        simp only [splitSlash, hc, if_false, hs, List.mem_cons] at h
        rcases h with h | h
        · subst h
          have h1 : '/' ∉ e1 := ih e1 (by simp [hs])
          intro hm
          rcases List.mem_cons.mp hm with hm | hm
          · exact hc hm.symm
          · exact h1 hm
        · exact ih e (by simp [hs, h])

theorem cleanStep_name (rooted : Bool) (stack : List (List Char)) (e : List Char)
    (h : isName e) : cleanStep rooted stack e = e :: stack := by
  obtain ⟨h1, h2, h3, _⟩ := h
  simp [cleanStep, h1, h2, h3]

theorem cleanStep_ok (rooted : Bool) (stack : List (List Char)) (e : List Char)
    (hs : StackOk rooted stack) (he : '/' ∉ e) : StackOk rooted (cleanStep rooted stack e) := by
  unfold cleanStep
  split
  · exact hs
  · rename_i h1
    push_neg at h1
    split
    · rename_i h2
      cases stack with
      | nil =>
        cases rooted with
        | true => simp [StackOk]
        | false => simp [StackOk, h2]
      | cons top rest =>
        obtain ⟨hr, htop⟩ := hs
        by_cases ht : top = ['.', '.']
        · simp only [ht, if_true]
          rcases htop with hn | ⟨_, hroot, hall⟩
          · exact absurd ht hn.2.2.1
          · refine ⟨⟨hr, Or.inr ⟨rfl, hroot, hall⟩⟩, Or.inr ⟨h2, hroot, ?_⟩⟩
            intro x hx
            rcases List.mem_cons.mp hx with hx | hx
            · exact hx
            · exact hall x hx
        · simp only [ht, if_false]
          exact hr
    · rename_i h2
      exact ⟨hs, Or.inl ⟨h1.1, h1.2, h2, he⟩⟩

theorem foldl_cleanStep_ok (rooted : Bool) (es stack : List (List Char))
    (hs : StackOk rooted stack) (he : ∀ e ∈ es, '/' ∉ e) :
    StackOk rooted (es.foldl (cleanStep rooted) stack) := by
  induction es generalizing stack with
  | nil => exact hs
  | cons e es ih =>
    simp only [List.foldl_cons]
    exact ih _ (cleanStep_ok rooted stack e hs (he e (by simp)))
      (fun x hx => he x (List.mem_cons_of_mem _ hx))

theorem stackOk_cleanElems (path : List Char) :
    StackOk (isRooted path) (cleanElems path).reverse := by
  unfold cleanElems
  rw [List.reverse_reverse]
  exact foldl_cleanStep_ok _ _ _ trivial (fun e he => no_slash_of_mem_splitSlash path e he)

theorem foldl_cleanStep_reverse (rooted : Bool) (stack : List (List Char))
    (hs : StackOk rooted stack) : stack.reverse.foldl (cleanStep rooted) [] = stack := by
  induction stack with
  | nil => rfl
  | cons e rest ih =>
    obtain ⟨hr, he⟩ := hs
    rw [List.reverse_cons, List.foldl_append, ih hr]
    simp only [List.foldl_cons, List.foldl_nil]
    rcases he with hn | ⟨hdd, hroot, hall⟩
    · exact cleanStep_name rooted rest e hn
    · subst hdd
      cases rest with
      | nil => simp [cleanStep, hroot]
      | cons top rest2 =>
        have ht : top = ['.', '.'] := hall top (by simp)
        simp [cleanStep, ht]

theorem stackOk_mem (rooted : Bool) (stack : List (List Char)) (hs : StackOk rooted stack)
    (e : List Char) (he : e ∈ stack) : e ≠ [] ∧ '/' ∉ e := by
  induction stack with
  | nil => simp at he
  | cons top rest ih =>
    obtain ⟨hr, htop⟩ := hs
    rcases List.mem_cons.mp he with h | h
    · subst h
      rcases htop with hn | ⟨hdd, _, _⟩
      · exact ⟨hn.1, hn.2.2.2⟩
      · subst hdd
        exact ⟨by simp, by decide⟩
    · exact ih hr h

theorem splitSlash_joinElems (es : List (List Char)) (hne : es ≠ [])
    (h : ∀ e ∈ es, '/' ∉ e) : splitSlash (joinElems es) = es := by
  induction es with
  | nil => exact absurd rfl hne
  | cons e rest ih =>
    cases rest with
    | nil => simpa [joinElems] using splitSlash_of_no_slash e (h e (by simp))
    | cons e2 rest2 =>
      have h1 := splitSlash_of_no_slash e (h e (by simp))
      have h2 := ih (by simp) (fun x hx => h x (List.mem_cons_of_mem _ hx))
      simp only [joinElems]
      rw [splitSlash_append, h1, h2]
      rfl

theorem isRooted_joinElems (es : List (List Char))
    (h : ∀ e ∈ es, e ≠ [] ∧ '/' ∉ e) : isRooted (joinElems es) = false := by
  cases es with
  | nil => rfl
  | cons e rest =>
    obtain ⟨hne, hns⟩ := h e (by simp)
    cases e with
    | nil => exact absurd rfl hne
    | cons c cs =>
      have hc : c ≠ '/' := fun hc => hns (by simp [hc])
      cases rest with
      | nil => simp [joinElems, isRooted, hc]
      | cons e2 rest2 => simp [joinElems, isRooted, hc]

theorem cleanElems_eq (path : List Char) (r : Bool) (h : isRooted path = r) :
    cleanElems path = ((splitSlash path).foldl (cleanStep r) []).reverse := by
  rw [← h]
  rfl

/-- The scan of `filepath.Clean` finds in a cleaned path the elements it kept
the first time, and a cleaned path is rooted exactly when the path was. -/
theorem clean_stable (path : String) :
    isRooted (Clean path).data = isRooted path.data ∧
      cleanElems (Clean path).data = cleanElems path.data := by
  have hok := stackOk_cleanElems path.data
  have hmem : ∀ e ∈ cleanElems path.data, e ≠ [] ∧ '/' ∉ e := fun e he =>
    stackOk_mem _ _ hok e (List.mem_reverse.mpr he)
  have hfold : (cleanElems path.data).foldl (cleanStep (isRooted path.data)) []
      = (cleanElems path.data).reverse := by
    have := foldl_cleanStep_reverse _ _ hok
    rwa [List.reverse_reverse] at this
  have hsplit : ∀ e ∈ cleanElems path.data, '/' ∉ e := fun e he => (hmem e he).2
  unfold Clean
  by_cases hr : isRooted path.data = true
  · rw [hr] at hfold
    simp only [hr, if_true]
    refine ⟨by simp [isRooted], ?_⟩
    have hroot : isRooted ('/' :: joinElems (cleanElems path.data)) = true := by simp [isRooted]
    by_cases hnil : cleanElems path.data = []
    · rw [hnil]
      decide
    · rw [cleanElems_eq _ _ hroot]
      have hsp : splitSlash ('/' :: joinElems (cleanElems path.data))
          = [] :: cleanElems path.data := by
        simp [splitSlash, splitSlash_joinElems _ hnil hsplit]
      rw [hsp]
      have hstep : cleanStep true [] [] = [] := by simp [cleanStep]
      rw [List.foldl_cons, hstep, hfold, List.reverse_reverse]
  · have hr2 : isRooted path.data = false := by simpa using hr
    rw [hr2] at hfold
    simp only [hr2]
    by_cases hnil : cleanElems path.data = []
    · simp only [hnil, if_true]
      exact ⟨by decide, by decide⟩
    · simp only [hnil, if_false]
      have hroot := isRooted_joinElems _ hmem
      refine ⟨by simpa using hroot, ?_⟩
      show cleanElems (joinElems (cleanElems path.data)) = cleanElems path.data
      rw [cleanElems_eq _ _ hroot, splitSlash_joinElems _ hnil hsplit, hfold,
        List.reverse_reverse]

theorem clean_idem (path : String) : Clean (Clean path) = Clean path := by
  obtain ⟨h1, h2⟩ := clean_stable path
  show (if isRooted (Clean path).data then _ else _) = Clean path
  rw [h1, h2]
  rfl

theorem samePath_clean (p q : String) : samePath (Clean p) q = samePath p q := by
  simp [samePath, clean_idem]

theorem isInside_clean (dir p : String) : isInside dir (Clean p) = isInside dir p := by
  obtain ⟨h1, h2⟩ := clean_stable p
  simp [isInside, h1, h2]

theorem isRooted_append (a b : List Char) (h : a ≠ []) : isRooted (a ++ b) = isRooted a := by
  cases a with
  | nil => exact absurd rfl h
  | cons c cs => rfl

theorem cleanElems_child (dir name : List Char) (hd : dir ≠ []) (hn : isName name) :
    isRooted (dir ++ '/' :: name) = isRooted dir ∧
      cleanElems (dir ++ '/' :: name) = cleanElems dir ++ [name] := by
  have hr := isRooted_append dir ('/' :: name) hd
  refine ⟨hr, ?_⟩
  rw [cleanElems_eq _ _ hr, splitSlash_append, splitSlash_of_no_slash name hn.2.2.2,
    List.foldl_append]
  simp only [List.foldl_cons, List.foldl_nil]
  rw [cleanStep_name _ _ _ hn, List.reverse_cons]
  rfl

/-- Joining a directory and a name gives the entry of that name directly
below the directory. -/
theorem join_name (dir name : String) (hn : isName name.data) :
    isRooted (Join dir name).data = isRooted dir.data ∧
      cleanElems (Join dir name).data = cleanElems dir.data ++ [name.data] := by
  unfold Join
  by_cases hd : dir.data = []
  · have hne : name.data ≠ [] := hn.1
    simp only [hd, ne_eq, not_true_eq_false, if_false, hne, not_false_eq_true, if_true]
    obtain ⟨h1, h2⟩ := clean_stable name
    rw [h1, h2]
    have hroot : isRooted name.data = false := by
      have := isRooted_joinElems [name.data] (by
        intro e he
        simp only [List.mem_singleton] at he
        subst he
        exact ⟨hn.1, hn.2.2.2⟩)
      simpa [joinElems] using this
    refine ⟨by rw [hroot]; rfl, ?_⟩
    rw [cleanElems_eq _ _ hroot, splitSlash_of_no_slash _ hn.2.2.2]
    simp only [List.foldl_cons, List.foldl_nil]
    rw [cleanStep_name _ _ _ hn]
    rfl
  · simp only [ne_eq, hd, not_false_eq_true, if_true]
    obtain ⟨h1, h2⟩ := clean_stable (dir ++ "/" ++ name)
    rw [h1, h2]
    have hdata : (dir ++ "/" ++ name).data = dir.data ++ '/' :: name.data := by
      simp [String.data_append]
    rw [hdata]
    exact cleanElems_child dir.data name.data hd hn

theorem isInside_join_name (dir name : String) (hn : isName name.data) :
    isInside dir (Join dir name) = true := by
  obtain ⟨h1, h2⟩ := join_name dir name hn
  simp [isInside, h1, h2]

/-! ## Facts about extensions -/

theorem extScan_no_dot (l acc : List Char) (h : '.' ∉ l) : extScan l acc = [] := by
  induction l generalizing acc with
  | nil => rfl
  | cons c cs ih =>
    have hc : c ≠ '.' := fun hc => h (by simp [hc])
    have hcs : '.' ∉ cs := fun hcs => h (List.mem_cons_of_mem _ hcs)
    unfold extScan
    split
    · rfl
    · simp [hc, ih _ hcs]

theorem extScan_dot (a b acc : List Char) (h : '.' ∉ a) :
    extScan (a ++ '.' :: b) acc = if '/' ∈ a then [] else '.' :: (a.reverse ++ acc) := by
  induction a generalizing acc with
  | nil => simp [extScan]
  | cons c cs ih =>
    have hc : c ≠ '.' := fun hc => h (by simp [hc])
    have hcs : '.' ∉ cs := fun hcs => h (List.mem_cons_of_mem _ hcs)
    by_cases hs : c = '/'
    · simp [extScan, hs]
    · have hs2 : ¬ '/' = c := fun e => hs e.symm
      simp [extScan, hs, hs2, hc, ih _ hcs]

theorem last_dot_split (l : List Char) (h : '.' ∈ l) :
    ∃ pre suf, l = pre ++ '.' :: suf ∧ '.' ∉ suf := by
  induction l with
  | nil => simp at h
  | cons c cs ih =>
    by_cases hcs : '.' ∈ cs
    · obtain ⟨pre, suf, h1, h2⟩ := ih hcs
      exact ⟨c :: pre, suf, by simp [h1], h2⟩
    · have hc : c = '.' := by
        rcases List.mem_cons.mp h with h | h
        · exact h.symm
        · exact absurd h hcs
      exact ⟨[], cs, by simp [hc], hcs⟩

theorem lastDotSuffix_dot (pre suf : List Char) (h : '.' ∉ suf) :
    lastDotSuffix (pre ++ '.' :: suf) = '.' :: suf := by
  induction pre with
  | nil => simp [lastDotSuffix, h]
  | cons c cs ih => simp [lastDotSuffix, ih]

theorem lastDotSuffix_no_dot (l : List Char) (h : '.' ∉ l) : lastDotSuffix l = [] := by
  cases l with
  | nil => rfl
  | cons c cs =>
    have hc : c ≠ '.' := fun hc => h (by simp [hc])
    have hcs : '.' ∉ cs := fun hcs => h (List.mem_cons_of_mem _ hcs)
    simp [lastDotSuffix, hc, hcs]

/-- The two readings of "extension": either the name has no dot and both are
empty, or the name splits at its last dot, where the specification's reading
takes the suffix and `filepath.Ext` takes it unless it holds a separator. -/
theorem ext_cases (name : String) :
    ('.' ∉ name.data ∧ (Ext name).data = [] ∧ (specExt name).data = []) ∨
    (∃ pre suf, name.data = pre ++ '.' :: suf ∧ '.' ∉ suf ∧
      (specExt name).data = '.' :: suf ∧
      (Ext name).data = if '/' ∈ suf then [] else '.' :: suf) := by
  by_cases h : '.' ∈ name.data
  · right
    obtain ⟨pre, suf, h1, h2⟩ := last_dot_split _ h
    refine ⟨pre, suf, h1, h2, ?_, ?_⟩
    · show lastDotSuffix name.data = _
      rw [h1]
      exact lastDotSuffix_dot pre suf h2
    · show extScan name.data.reverse [] = _
      rw [h1]
      have hrev : (pre ++ '.' :: suf).reverse = suf.reverse ++ '.' :: pre.reverse := by simp
      rw [hrev, extScan_dot _ _ _ (by simpa using h2)]
      simp
  · left
    exact ⟨h, extScan_no_dot _ _ (by simpa using h), lastDotSuffix_no_dot _ h⟩

theorem ext_suffix (name : String) : (Ext name).data <:+ name.data := by
  rcases ext_cases name with ⟨_, h, _⟩ | ⟨pre, suf, h1, _, _, h2⟩
  · rw [h]
    exact List.nil_suffix
  · rw [h2, h1]
    split
    · exact List.nil_suffix
    · exact List.suffix_append _ _

theorem allowList_no_slash (e : String) (h : e ∈ allowList) : '/' ∉ e.data := by
  simp only [allowList, List.mem_cons, List.mem_singleton, List.not_mem_nil, or_false] at h
  rcases h with h | h | h | h | h | h <;> subst h <;> decide

theorem allowList_length (e : String) (h : e ∈ allowList) : 4 ≤ e.data.length := by
  simp only [allowList, List.mem_cons, List.mem_singleton, List.not_mem_nil, or_false] at h
  rcases h with h | h | h | h | h | h <;> subst h <;> decide

theorem toLower_slash_mem (l : List Char) (h : '/' ∈ l) : '/' ∈ l.map Char.toLower := by
  have : Char.toLower '/' = '/' := by decide
  rw [← this]
  exact List.mem_map_of_mem _ h

/-- The allow-list check gives the same verdict for both readings of
"extension". -/
theorem ext_allowed_iff (name : String) :
    ext name ∈ allowList ↔ ToLower (specExt name) ∈ allowList := by
  rcases ext_cases name with ⟨_, h1, h2⟩ | ⟨pre, suf, _, _, h1, h2⟩
  · have : Ext name = specExt name := by
      cases hE : Ext name
      cases hS : specExt name
      simp_all
    simp [ext, this]
  · by_cases hs : '/' ∈ suf
    · simp only [hs, if_true] at h2
      constructor
      · intro h
        have hE : Ext name = "" := by
          cases hE : Ext name
          simp_all
        simp [ext, hE, ToLower, allowList] at h
      · intro h
        exfalso
        apply allowList_no_slash _ h
        show '/' ∈ (specExt name).data.map Char.toLower
        apply toLower_slash_mem
        rw [h1]
        exact List.mem_cons_of_mem _ hs
    · simp only [hs, if_false] at h2
      have : Ext name = specExt name := by
        cases hE : Ext name
        cases hS : specExt name
        simp_all
      simp [ext, this]

theorem toNat_ofNat_valid (n : Nat) (h : n.isValidChar) : (Char.ofNat n).toNat = n := by
  unfold Char.ofNat
  rw [dif_pos h]
  rfl

theorem toLower_of_not_upper (c : Char) (h : c.isUpper = false) : c.toLower = c := by
  simp only [Char.isUpper, Bool.and_eq_false_imp, decide_eq_true_eq, decide_eq_false_iff_not] at h
  unfold Char.toLower
  simp only [Char.toNat, ge_iff_le]
  split
  · rename_i h2
    exfalso
    have h3 : (65 : UInt32) ≤ c.val := by
      rw [UInt32.le_def]
      exact h2.1
    apply h h3
    rw [UInt32.le_def]
    exact h2.2
  · rfl

theorem toLower_of_upper (c : Char) (h : c.isUpper = true) : c.toLower ≠ c := by
  simp only [Char.isUpper, Bool.and_eq_true, decide_eq_true_eq, ge_iff_le] at h
  obtain ⟨h1, h2⟩ := h
  rw [UInt32.le_def] at h1 h2
  have h1b : 65 ≤ c.toNat := h1
  have h2b : c.toNat ≤ 90 := h2
  unfold Char.toLower
  simp only [ge_iff_le, h1b, h2b, and_self, if_true]
  intro heq
  have h3 := congrArg Char.toNat heq
  have hv : (c.toNat + 32).isValidChar := by
    left
    omega
  rw [toNat_ofNat_valid _ hv] at h3
  omega

theorem map_toLower_of_no_upper (l : List Char) (h : l.any Char.isUpper = false) :
    l.map Char.toLower = l := by
  induction l with
  | nil => rfl
  | cons c cs ih =>
    simp only [List.any_cons, Bool.or_eq_false_iff] at h
    simp [toLower_of_not_upper c h.1, ih h.2]

theorem map_toLower_of_upper (l : List Char) (h : l.any Char.isUpper = true) :
    l.map Char.toLower ≠ l := by
  induction l with
  | nil => simp at h
  | cons c cs ih =>
    simp only [List.any_cons, Bool.or_eq_true] at h
    intro heq
    simp only [List.map_cons, List.cons.injEq] at heq
    rcases h with h | h
    · exact toLower_of_upper c h heq.1
    · exact ih h heq.2

theorem trimSuffix_of_suffix (s suffix : String) (pre : List Char)
    (h : s.data = pre ++ suffix.data) : TrimSuffix s suffix = ⟨pre⟩ := by
  have hs : HasSuffix s suffix = true := by
    simp [HasSuffix, h]
  simp [TrimSuffix, hs, h]

theorem trimSuffix_of_not_suffix (s suffix : String) (h : ¬ suffix.data <:+ s.data) :
    TrimSuffix s suffix = s := by
  have hs : HasSuffix s suffix = false := by
    cases hb : HasSuffix s suffix with
    | false => rfl
    | true => exact absurd (List.isSuffixOf_iff_suffix.mp hb) h
  simp [TrimSuffix, hs]

theorem trimSuffix_no_slash (s suffix : String) (h : '/' ∉ s.data) :
    '/' ∉ (TrimSuffix s suffix).data := by
  unfold TrimSuffix
  split
  · exact fun hm => h (List.mem_of_mem_take hm)
  · exact h

/-- A filename is its stem followed by its extension. -/
theorem stem_append_ext (name : String) : name.data = (stem name).data ++ (Ext name).data := by
  obtain ⟨pre, hpre⟩ := ext_suffix name
  have : (stem name).data = pre := by
    show name.data.take _ = pre
    rw [← hpre]
    simp
  rw [this, hpre]

/-- With the extension written in lower case, trimming it gives the stem. -/
theorem trimSuffix_ext_lower (name : String) (h : (Ext name).data.any Char.isUpper = false) :
    TrimSuffix name (ext name) = stem name := by
  have he : ext name = Ext name := by
    show (⟨(Ext name).data.map Char.toLower⟩ : String) = Ext name
    rw [map_toLower_of_no_upper _ h]
  rw [he]
  exact trimSuffix_of_suffix name (Ext name) (stem name).data (stem_append_ext name)

/-- With an upper-case letter in the extension, trimming the lower-cased
extension changes nothing. -/
theorem trimSuffix_ext_upper (name : String) (h : (Ext name).data.any Char.isUpper = true) :
    TrimSuffix name (ext name) = name := by
  apply trimSuffix_of_not_suffix
  intro hsuf
  have hlen : (ext name).data.length = (Ext name).data.length := by
    show ((Ext name).data.map Char.toLower).length = _
    simp
  have h1 := List.suffix_of_suffix_length_le hsuf (ext_suffix name) (le_of_eq hlen)
  exact map_toLower_of_upper _ h (h1.eq_of_length hlen)

theorem isName_of_long (l : List Char) (hs : '/' ∉ l) (hl : 3 ≤ l.length) : isName l := by
  refine ⟨?_, ?_, ?_, hs⟩ <;> intro h <;> simp [h] at hl

theorem base_of_no_slash (name : String) (hne : name.data ≠ []) (hs : '/' ∉ name.data) :
    Base name = name := by
  have hall : ∀ c ∈ name.data.reverse, c ≠ '/' := by
    intro c hc heq
    exact hs (heq ▸ List.mem_reverse.mp hc)
  have hdrop : name.data.reverse.dropWhile (fun c => decide (c = '/')) = name.data.reverse := by
    cases hr : name.data.reverse with
    | nil => rfl
    | cons c cs =>
      have : c ≠ '/' := hall c (by simp [hr])
      simp [List.dropWhile, this]
  have htake : name.data.reverse.takeWhile (fun c => decide (c ≠ '/')) = name.data.reverse := by
    rw [List.takeWhile_eq_self_iff]
    intro c hc
    simpa using hall c hc
  unfold Base
  simp only [hne, if_false, hdrop, htake, List.reverse_reverse]

/-- An accepted filename ends in an extension of at least four characters. -/
theorem accepted_ext_length (name : String) (h : supported (ext name) = true) :
    4 ≤ (Ext name).data.length := by
  have h1 := allowList_length _ ((supported_iff _).mp h)
  have h2 : (ext name).data.length = (Ext name).data.length := by
    show ((Ext name).data.map Char.toLower).length = _
    simp
  omega

theorem accepted_length (name : String) (h : supported (ext name) = true) :
    4 ≤ name.data.length := by
  have h1 := accepted_ext_length name h
  have h2 := congrArg List.length (stem_append_ext name)
  simp only [List.length_append] at h2
  omega

/-- An accepted filename without a path separator is a name. -/
theorem accepted_isName (name : String) (h : supported (ext name) = true)
    (hs : '/' ∉ name.data) : isName name.data :=
  isName_of_long _ hs (by have := accepted_length name h; omega)

theorem isName_append (a b : String) (ha : '/' ∉ a.data) (hb : '/' ∉ b.data)
    (hl : 3 ≤ b.data.length) : isName (a ++ b).data := by
  apply isName_of_long
  · simp [String.data_append, ha, hb]
  · simp only [String.data_append, List.length_append]
    omega

/-! ## Facts about the stages of the handler -/

theorem handler_accepted (env : Env) (fs : FS) (up : Upload) (tempDir : String)
    (hacc : supported (ext up.filename) = true) (hdir : env.mkdirTemp = some tempDir) :
    convertHandler env ⟨some up⟩ fs =
      ⟨(staged env up tempDir (fs.store tempDir Node.dir)).response,
        RemoveAll (staged env up tempDir (fs.store tempDir Node.dir)).fs tempDir,
        Call.mkdirTemp (some tempDir) ::
          (staged env up tempDir (fs.store tempDir Node.dir)).calls ++
            [Call.removeAll tempDir]⟩ := by
  simp [convertHandler, hacc, hdir]

theorem staged_converted (env : Env) (fs : FS) (up : Upload) (tempDir : String)
    (hc : env.createFails = false) (hs : env.saveFault = none) :
    staged env up tempDir (fs.store tempDir Node.dir) =
      if (converterRun env fs tempDir up).ok then
        ⟨(respond env tempDir up.filename (converterRun env fs tempDir up).fs).1,
          (converterRun env fs tempDir up).fs,
          [Call.create (inputPath tempDir up.filename),
            Call.copyIn (inputPath tempDir up.filename),
            Call.exec "libreoffice" (convertArgs tempDir (inputPath tempDir up.filename))] ++
            (respond env tempDir up.filename (converterRun env fs tempDir up).fs).2⟩
      else
        ⟨[Action.json 500 errConvert (some (converterRun env fs tempDir up).output)],
          (converterRun env fs tempDir up).fs,
          [Call.create (inputPath tempDir up.filename),
            Call.copyIn (inputPath tempDir up.filename),
            Call.exec "libreoffice" (convertArgs tempDir (inputPath tempDir up.filename))]⟩ := by
  simp [staged, hc, hs, converterRun]

theorem respond_response_ne (env : Env) (tempDir filename : String) (fs : FS) :
    (respond env tempDir filename fs).1 ≠ [Action.json 400 errUnsupported none] := by
  unfold respond
  split
  · simp [errNotFound, errUnsupported]
  · exact (sendFile_response_ne env filename _ fs).1

theorem staged_response_ne (env : Env) (up : Upload) (tempDir : String) (fs : FS) :
    (staged env up tempDir fs).response ≠ [Action.json 400 errUnsupported none] := by
  unfold staged
  split
  · simp [errCreate, errUnsupported]
  · split
    · simp [errSave, errUnsupported]
    · simp only
      split
      · exact respond_response_ne env tempDir up.filename _
      · simp [errConvert, errUnsupported]

theorem sendFile_calls (env : Env) (filename path : String) (fs : FS) (c : Call)
    (h : c ∈ (sendFile env filename path fs).2) :
    c = Call.openFile path ∨ c = Call.copyOut path := by
  unfold sendFile at h
  split at h
  · simp at h
    exact Or.inl h
  · split at h
    · simp at h
      exact Or.inl h
    · simpa using h
    · split at h <;> simpa using h

theorem sendFile_opens (env : Env) (filename path : String) (fs : FS) :
    Call.openFile path ∈ (sendFile env filename path fs).2 := by
  unfold sendFile
  split
  · simp
  · split
    · simp
    · simp
    · split <;> simp

theorem locate_calls (env : Env) (tempDir filename : String) (fs : FS) (c : Call)
    (h : c ∈ (locate env tempDir filename fs).2) : ∃ p, c = Call.stat p := by
  unfold locate at h
  split at h
  · split at h
    · simp at h
      rcases h with h | h
      · exact ⟨_, h⟩
      · exact ⟨_, h⟩
    · simp at h
      rcases h with h | h
      · exact ⟨_, h⟩
      · exact ⟨_, h⟩
  · simp at h
    exact ⟨_, h⟩

theorem respond_calls (env : Env) (tempDir filename : String) (fs : FS) (c : Call)
    (h : c ∈ (respond env tempDir filename fs).2) :
    (∃ p, c = Call.stat p) ∨ (∃ p, c = Call.openFile p) ∨ (∃ p, c = Call.copyOut p) := by
  unfold respond at h
  split at h
  · rename_i stats hl
    have hs : stats = (locate env tempDir filename fs).2 := by rw [hl]
    rw [hs] at h
    exact Or.inl (locate_calls env tempDir filename fs c h)
  · rename_i path stats hl
    have hs : stats = (locate env tempDir filename fs).2 := by rw [hl]
    rcases List.mem_append.mp h with h | h
    · rw [hs] at h
      exact Or.inl (locate_calls env tempDir filename fs c h)
    · rcases sendFile_calls env filename path fs c h with h | h
      · exact Or.inr (Or.inl ⟨_, h⟩)
      · exact Or.inr (Or.inr ⟨_, h⟩)

theorem staged_calls (env : Env) (up : Upload) (tempDir : String) (fs : FS) (c : Call)
    (h : c ∈ (staged env up tempDir fs).calls) :
    c = Call.create (inputPath tempDir up.filename) ∨
    c = Call.copyIn (inputPath tempDir up.filename) ∨
    c = Call.exec "libreoffice" (convertArgs tempDir (inputPath tempDir up.filename)) ∨
    (∃ p, c = Call.stat p) ∨ (∃ p, c = Call.openFile p) ∨ (∃ p, c = Call.copyOut p) := by
  unfold staged at h
  split at h
  · simp at h
    exact Or.inl h
  · split at h
    · simp at h
      rcases h with h | h
      · exact Or.inl h
      · exact Or.inr (Or.inl h)
    · simp only at h
      split at h
      · simp only [List.mem_append, List.mem_cons, List.mem_singleton, List.not_mem_nil,
          or_false] at h
        rcases h with (h | h | h) | h
        · exact Or.inl h
        · exact Or.inr (Or.inl h)
        · exact Or.inr (Or.inr (Or.inl h))
        · exact Or.inr (Or.inr (Or.inr (respond_calls env tempDir up.filename _ c h)))
      · simp only [List.mem_cons, List.mem_singleton, List.not_mem_nil, or_false] at h
        rcases h with h | h | h
        · exact Or.inl h
        · exact Or.inr (Or.inl h)
        · exact Or.inr (Or.inr (Or.inl h))

/-- The system calls of a request: none before the upload is accepted, and
after that the creation of the staging directory, the calls made while it
exists, and its removal. -/
theorem handler_calls (env : Env) (fs : FS) (req : Request) (c : Call)
    (h : c ∈ (convertHandler env req fs).calls) :
    ∃ up, req.formFile = some up ∧ supported (ext up.filename) = true ∧
      (c = Call.mkdirTemp none ∧ env.mkdirTemp = none ∨
        ∃ tempDir, env.mkdirTemp = some tempDir ∧
          (convertHandler env req fs).fs =
            RemoveAll (staged env up tempDir (fs.store tempDir Node.dir)).fs tempDir ∧
          (c = Call.mkdirTemp (some tempDir) ∨ c = Call.removeAll tempDir ∨
            c ∈ (staged env up tempDir (fs.store tempDir Node.dir)).calls)) := by
  unfold convertHandler at h ⊢
  cases hf : req.formFile with
  | none => simp [hf] at h
  | some up =>
    refine ⟨up, rfl, ?_⟩
    simp only [hf] at h ⊢
    by_cases hacc : supported (ext up.filename) = true
    · refine ⟨hacc, ?_⟩
      simp only [hacc, if_true] at h ⊢
      cases hd : env.mkdirTemp with
      | none =>
        simp only [hd, List.mem_singleton] at h
        exact Or.inl ⟨h, rfl⟩
      | some tempDir =>
        simp only [hd, List.mem_cons, List.mem_append, List.mem_singleton, List.not_mem_nil,
          or_false] at h
        refine Or.inr ⟨tempDir, rfl, rfl, ?_⟩
        rcases h with (h | h) | h
        · exact Or.inl h
        · exact Or.inr (Or.inr h)
        · exact Or.inr (Or.inl h)
    · simp [hacc] at h

theorem sendFile_openFile_iff (env : Env) (filename path : String) (fs : FS) (p : String) :
    Call.openFile p ∈ (sendFile env filename path fs).2 ↔ p = path := by
  constructor
  · intro h
    rcases sendFile_calls env filename path fs _ h with h | h
    · simpa using h
    · simp at h
  · intro h
    subst h
    exact sendFile_opens env filename p fs

theorem sendFile_succeeded (env : Env) (filename path : String) (fs : FS)
    (h : succeeded (sendFile env filename path fs).1 = true) :
    fs.lookup path = some (Node.file (bodyBytes (sendFile env filename path fs).1)) ∧
      (sendFile env filename path fs).1 =
        pdfHeaders filename ++ [Action.write (bodyBytes (sendFile env filename path fs).1)] := by
  unfold sendFile at h ⊢
  split
  · rename_i ho
    simp [ho, succeeded] at h
  · rename_i ho
    simp only [ho] at h
    split
    · rename_i hl
      simp [hl, succeeded] at h
    · rename_i hl
      simp [hl, succeeded, pdfHeaders] at h
    · rename_i content hl
      simp only [hl] at h
      split
      · simp [pdfHeaders, bodyBytes, hl]
      · rename_i n hn
        simp [hn, succeeded, pdfHeaders] at h

theorem respond_first (env : Env) (tempDir filename : String) (fs : FS)
    (h : statNotExist env fs (outputPath tempDir filename) = false) :
    respond env tempDir filename fs =
      ((sendFile env filename (outputPath tempDir filename) fs).1,
        [Call.stat (outputPath tempDir filename)] ++
          (sendFile env filename (outputPath tempDir filename) fs).2) := by
  simp [respond, locate, h]

theorem respond_second (env : Env) (tempDir filename : String) (fs : FS)
    (h1 : statNotExist env fs (outputPath tempDir filename) = true)
    (h2 : statNotExist env fs (altOutputPath tempDir filename) = false) :
    respond env tempDir filename fs =
      ((sendFile env filename (altOutputPath tempDir filename) fs).1,
        [Call.stat (outputPath tempDir filename), Call.stat (altOutputPath tempDir filename)] ++
          (sendFile env filename (altOutputPath tempDir filename) fs).2) := by
  simp [respond, locate, h1, h2]

theorem respond_neither (env : Env) (tempDir filename : String) (fs : FS)
    (h1 : statNotExist env fs (outputPath tempDir filename) = true)
    (h2 : statNotExist env fs (altOutputPath tempDir filename) = true) :
    respond env tempDir filename fs =
      ([Action.json 500 errNotFound none],
        [Call.stat (outputPath tempDir filename), Call.stat (altOutputPath tempDir filename)]) := by
  simp [respond, locate, h1, h2]

theorem statNotExist_of_entry (env : Env) (fs : FS) (path : String) (n : Node)
    (h : fs.lookup path = some n) : statNotExist env fs path = false := by
  simp [statNotExist, h]

/-- A request that reaches a successful converter run: its response and
calls in terms of the last stage. -/
theorem handler_converted (env : Env) (fs : FS) (up : Upload) (tempDir : String)
    (hacc : supported (ext up.filename) = true) (hdir : env.mkdirTemp = some tempDir)
    (hc : env.createFails = false) (hs : env.saveFault = none)
    (hok : (converterRun env fs tempDir up).ok = true) :
    (convertHandler env ⟨some up⟩ fs).response =
        (respond env tempDir up.filename (converterRun env fs tempDir up).fs).1 ∧
      (convertHandler env ⟨some up⟩ fs).calls =
        [Call.mkdirTemp (some tempDir), Call.create (inputPath tempDir up.filename),
          Call.copyIn (inputPath tempDir up.filename),
          Call.exec "libreoffice" (convertArgs tempDir (inputPath tempDir up.filename))] ++
          (respond env tempDir up.filename (converterRun env fs tempDir up).fs).2 ++
          [Call.removeAll tempDir] := by
  rw [handler_accepted env fs up tempDir hacc hdir, staged_converted env fs up tempDir hc hs]
  simp [hok]

/-- The success path for lower-case extensions: for an accepted filename
without a path separator whose extension is written in lower case, when staging succeeds,
the converter exits zero and leaves a file under `stem+"_output.pdf"` or,
that one being reported absent, under `stem+".pdf"`, and opening and sending
succeed,
the answer is 200 with `Content-Type: application/pdf`, the download name
`stem+".pdf"` and the bytes of that file as body. -/
theorem lowercase_conversion_succeeds (env : Env) (fs : FS) (up : Upload) (tempDir : String)
    (content : Bytes)
    (hacc : supported (ext up.filename) = true) (hsep : '/' ∉ up.filename.data)
    (hlow : (Ext up.filename).data.any Char.isUpper = false)
    (hdir : env.mkdirTemp = some tempDir)
    (hc : env.createFails = false) (hs : env.saveFault = none)
    (hok : (converterRun env fs tempDir up).ok = true)
    (hopen : env.openFails = false) (hsend : env.sendFault = none)
    (hpdf : (converterRun env fs tempDir up).fs.lookup
          (Join tempDir (stem up.filename ++ "_output.pdf")) = some (Node.file content) ∨
        ((converterRun env fs tempDir up).fs.lookup
            (Join tempDir (stem up.filename ++ "_output.pdf")) = none ∧
          env.statFails (Join tempDir (stem up.filename ++ "_output.pdf")) = false ∧
          (converterRun env fs tempDir up).fs.lookup
            (Join tempDir (stem up.filename ++ ".pdf")) = some (Node.file content))) :
    status (convertHandler env ⟨some up⟩ fs).response = 200 ∧
      headerValue "Content-Type" (convertHandler env ⟨some up⟩ fs).response =
        some "application/pdf" ∧
      headerValue "Content-Disposition" (convertHandler env ⟨some up⟩ fs).response =
        some ("attachment; filename=" ++ (stem up.filename ++ ".pdf")) ∧
      bodyBytes (convertHandler env ⟨some up⟩ fs).response = content := by
  have hne : up.filename.data ≠ [] := by
    intro h0
    have := accepted_length up.filename hacc
    simp [h0] at this
  have hbase : Base up.filename = up.filename := base_of_no_slash _ hne hsep
  have htrim := trimSuffix_ext_lower up.filename hlow
  have h1 : outputPath tempDir up.filename = Join tempDir (stem up.filename ++ "_output.pdf") := by
    simp [outputPath, htrim]
  have h2 : altOutputPath tempDir up.filename = Join tempDir (stem up.filename ++ ".pdf") := by
    simp [altOutputPath, hbase, htrim]
  have h3 : contentDisposition up.filename
      = "attachment; filename=" ++ (stem up.filename ++ ".pdf") := by
    simp [contentDisposition, htrim]
  have hsendFile : ∀ path, (converterRun env fs tempDir up).fs.lookup path
      = some (Node.file content) →
      (sendFile env up.filename path (converterRun env fs tempDir up).fs).1
        = pdfHeaders up.filename ++ [Action.write content] := by
    intro path hl
    simp [sendFile, hopen, hl, hsend]
  have hfinal : (convertHandler env ⟨some up⟩ fs).response
      = pdfHeaders up.filename ++ [Action.write content] := by
    rw [(handler_converted env fs up tempDir hacc hdir hc hs hok).1]
    rcases hpdf with hp | ⟨hp1, hst, hp2⟩
    · rw [← h1] at hp
      rw [respond_first env tempDir up.filename _ (statNotExist_of_entry env _ _ _ hp)]
      exact hsendFile _ hp
    · rw [← h1] at hp1 hst
      rw [← h2] at hp2
      rw [respond_second env tempDir up.filename _ (by simp [statNotExist, hp1, hst])
        (statNotExist_of_entry env _ _ _ hp2)]
      exact hsendFile _ hp2
  rw [hfinal]
  refine ⟨?_, ?_, ?_, ?_⟩
  · simp [pdfHeaders, status]
  · simp [pdfHeaders, headerValue]
  · simp [pdfHeaders, headerValue, h3]
  · simp [pdfHeaders, bodyBytes]

/-! ## Facts about the multipart parser, fresh directories and the converter's contract -/

theorem base_no_slash (name : String) : '/' ∉ (Base name).data ∨ Base name = "/" := by
  unfold Base
  split
  · exact Or.inl (by decide)
  · simp only
    split
    · exact Or.inr rfl
    · left
      intro hm
      have hm2 := List.mem_reverse.mp hm
      have := List.mem_takeWhile_imp hm2
      simp at this

/-- A filename that the parser delivers and the handler accepts holds no path
separator. -/
theorem fileName_no_slash (part : FilePart) (h : supported (ext (FileName part)) = true) :
    '/' ∉ (FileName part).data := by
  have hlen := accepted_length _ h
  unfold FileName at hlen ⊢
  split
  · decide
  · rename_i hne
    simp only [hne, if_false] at hlen
    rcases base_no_slash part.filename with hb | hb
    · exact hb
    · rw [hb] at hlen
      simp at hlen

theorem join_injective (dir a b : String) (ha : isName a.data) (hb : isName b.data)
    (h : Join dir a = Join dir b) : a = b := by
  have h1 := (join_name dir a ha).2
  have h2 := (join_name dir b hb).2
  rw [h, h2] at h1
  have h3 := List.append_cancel_left h1
  simp only [List.cons.injEq, and_true] at h3
  exact String.ext h3.symm

theorem clean_join (dir name : String) (hn : name.data ≠ []) :
    Clean (Join dir name) = Join dir name := by
  unfold Join
  by_cases hd : dir.data ≠ []
  · rw [if_pos hd]
    exact clean_idem _
  · rw [if_neg hd, if_pos hn]
    exact clean_idem _

theorem join_ne_clean_dir (dir name : String) (hn : isName name.data) :
    Join dir name ≠ Clean dir := by
  intro h
  have h1 := (join_name dir name hn).2
  rw [h, (clean_stable dir).2] at h1
  have := congrArg List.length h1
  simp at this

theorem ne_of_length_ne (a b : String) (h : a.data.length ≠ b.data.length) : a ≠ b := by
  intro hab
  exact h (by rw [hab])

theorem allowList_length_le (e : String) (h : e ∈ allowList) : e.data.length ≤ 5 := by
  simp only [allowList, List.mem_cons, List.mem_singleton, List.not_mem_nil, or_false] at h
  rcases h with h | h | h | h | h | h <;> subst h <;> decide

theorem accepted_ext_length_le (name : String) (h : supported (ext name) = true) :
    (Ext name).data.length ≤ 5 := by
  have h1 := allowList_length_le _ ((supported_iff _).mp h)
  have h2 : (ext name).data.length = (Ext name).data.length := by
    show ((Ext name).data.map Char.toLower).length = _
    simp
  omega

theorem stem_no_slash (name : String) (h : '/' ∉ name.data) : '/' ∉ (stem name).data :=
  fun hm => h (List.mem_of_mem_take hm)

/-- Under the converter's contract, in a new staging directory, a name other
than the upload and the two names the converter may write is still absent
after the run. -/
theorem untouched_absent (env : Env) (fs : FS) (tempDir : String) (up : Upload) (n : String)
    (hfresh : freshDir fs tempDir) (hcontract : honoursContract env fs tempDir up)
    (hsep : '/' ∉ up.filename.data) (hf : isName up.filename.data) (hn : isName n.data)
    (h1 : n ≠ up.filename) (h2 : n ≠ stem up.filename ++ "_output.pdf")
    (h3 : n ≠ stem up.filename ++ ".pdf") :
    (converterRun env fs tempDir up).fs.lookup (Join tempDir n) = none := by
  have hs := stem_no_slash up.filename hsep
  have hn2 : isName (stem up.filename ++ "_output.pdf").data :=
    isName_append _ _ hs (by decide) (by decide)
  have hn3 : isName (stem up.filename ++ ".pdf").data :=
    isName_append _ _ hs (by decide) (by decide)
  show (converterRun env fs tempDir up).fs (Clean (Join tempDir n)) = none
  rw [clean_join tempDir n hn.1]
  have hsame : (converterRun env fs tempDir up).fs (Join tempDir n)
      = stagedTable fs tempDir up (Join tempDir n) := by
    by_contra hne
    rcases hcontract _ hne with hk | hk
    · exact h2 (join_injective tempDir _ _ hn hn2 hk)
    · exact h3 (join_injective tempDir _ _ hn hn3 hk)
  rw [hsame]
  have hk1 : Join tempDir n ≠ Clean (inputPath tempDir up.filename) := by
    rw [inputPath, clean_join tempDir _ hf.1]
    exact fun hk => h1 (join_injective tempDir _ _ hn hf hk)
  have hk2 : Join tempDir n ≠ Clean tempDir := join_ne_clean_dir tempDir n hn
  have hk3 : fs (Join tempDir n) = none := hfresh _ (isInside_join_name tempDir n hn)
  simp [stagedTable, FS.store, hk1, hk2, hk3]

/-- A success exit of the handler: the upload was accepted and staged, the
converter exited zero, one of the two candidates holds a file, and the
response is the three PDF headers followed by the bytes of that file. -/
theorem handler_succeeded (env : Env) (fs : FS) (up : Upload)
    (h : succeeded (convertHandler env ⟨some up⟩ fs).response = true) :
    supported (ext up.filename) = true ∧
      ∃ tempDir, env.mkdirTemp = some tempDir ∧
        ∃ p, (p = outputPath tempDir up.filename ∨ p = altOutputPath tempDir up.filename) ∧
          (converterRun env fs tempDir up).fs.lookup p =
            some (Node.file (bodyBytes (convertHandler env ⟨some up⟩ fs).response)) ∧
          (convertHandler env ⟨some up⟩ fs).response =
            pdfHeaders up.filename ++
              [Action.write (bodyBytes (convertHandler env ⟨some up⟩ fs).response)] := by
  by_cases hacc : supported (ext up.filename) = true
  · refine ⟨hacc, ?_⟩
    cases hd : env.mkdirTemp with
    | none => simp [convertHandler, hacc, hd, succeeded] at h
    | some tempDir =>
      refine ⟨tempDir, rfl, ?_⟩
      by_cases hc : env.createFails = true
      · simp [convertHandler, hacc, hd, staged, hc, succeeded] at h
      · have hc2 : env.createFails = false := by simpa using hc
        cases hs : env.saveFault with
        | some n => simp [convertHandler, hacc, hd, staged, hc2, hs, succeeded] at h
        | none =>
          by_cases hok : (converterRun env fs tempDir up).ok = true
          · obtain ⟨hresp, _⟩ := handler_converted env fs up tempDir hacc hd hc2 hs hok
            rw [hresp] at h ⊢
            by_cases h1 : statNotExist env (converterRun env fs tempDir up).fs
                (outputPath tempDir up.filename) = true
            · by_cases h2 : statNotExist env (converterRun env fs tempDir up).fs
                  (altOutputPath tempDir up.filename) = true
              · rw [respond_neither env tempDir up.filename _ h1 h2] at h
                simp [succeeded] at h
              · have h2b : statNotExist env (converterRun env fs tempDir up).fs
                    (altOutputPath tempDir up.filename) = false := by simpa using h2
                rw [respond_second env tempDir up.filename _ h1 h2b] at h ⊢
                obtain ⟨hl, hr⟩ := sendFile_succeeded env up.filename _ _ h
                exact ⟨_, Or.inr rfl, hl, hr⟩
            · have h1b : statNotExist env (converterRun env fs tempDir up).fs
                  (outputPath tempDir up.filename) = false := by simpa using h1
              rw [respond_first env tempDir up.filename _ h1b] at h ⊢
              obtain ⟨hl, hr⟩ := sendFile_succeeded env up.filename _ _ h
              exact ⟨_, Or.inl rfl, hl, hr⟩
          · have hok2 : (converterRun env fs tempDir up).ok = false := by simpa using hok
            rw [handler_accepted env fs up tempDir hacc hd,
              staged_converted env fs up tempDir hc2 hs] at h
            simp [hok2, succeeded] at h
  · simp [convertHandler, hacc, succeeded] at h

/-- The probing order on the handler's own two candidates, after a converter
run that exited zero: the first candidate is opened unless `os.Stat` reports
it as not existing, then the second is opened unless it is reported as not
existing too, and the answer is the output-not-found error exactly when both
are reported as not existing.  When the candidate that is opened holds a file
and opening and sending do not fail, the answer is the PDF response with the
bytes of that file. -/
theorem candidate_selection (env : Env) (fs : FS) (up : Upload) (tempDir : String)
    (hacc : supported (ext up.filename) = true) (hdir : env.mkdirTemp = some tempDir)
    (hc : env.createFails = false) (hs : env.saveFault = none)
    (hok : (converterRun env fs tempDir up).ok = true) :
    (statNotExist env (converterRun env fs tempDir up).fs (outputPath tempDir up.filename) = false →
        ∀ p, Call.openFile p ∈ (convertHandler env ⟨some up⟩ fs).calls ↔
          p = outputPath tempDir up.filename) ∧
      (statNotExist env (converterRun env fs tempDir up).fs (outputPath tempDir up.filename) = true →
        statNotExist env (converterRun env fs tempDir up).fs
          (altOutputPath tempDir up.filename) = false →
        ∀ p, Call.openFile p ∈ (convertHandler env ⟨some up⟩ fs).calls ↔
          p = altOutputPath tempDir up.filename) ∧
      ((convertHandler env ⟨some up⟩ fs).response = [Action.json 500 errNotFound none] ↔
        statNotExist env (converterRun env fs tempDir up).fs
            (outputPath tempDir up.filename) = true ∧
          statNotExist env (converterRun env fs tempDir up).fs
            (altOutputPath tempDir up.filename) = true) ∧
      (∀ p content, Call.openFile p ∈ (convertHandler env ⟨some up⟩ fs).calls →
        (converterRun env fs tempDir up).fs.lookup p = some (Node.file content) →
        env.openFails = false → env.sendFault = none →
        (convertHandler env ⟨some up⟩ fs).response =
          pdfHeaders up.filename ++ [Action.write content]) := by
  obtain ⟨hresp, hcalls⟩ := handler_converted env fs up tempDir hacc hdir hc hs hok
  rw [hresp, hcalls]
  have hsend : ∀ p content, (converterRun env fs tempDir up).fs.lookup p
      = some (Node.file content) → env.openFails = false → env.sendFault = none →
      (sendFile env up.filename p (converterRun env fs tempDir up).fs).1
        = pdfHeaders up.filename ++ [Action.write content] := by
    intro p content hl ho hsd
    simp [sendFile, ho, hl, hsd]
  by_cases h1 : statNotExist env (converterRun env fs tempDir up).fs
      (outputPath tempDir up.filename) = true
  · by_cases h2 : statNotExist env (converterRun env fs tempDir up).fs
        (altOutputPath tempDir up.filename) = true
    · rw [respond_neither env tempDir up.filename _ h1 h2]
      refine ⟨fun h => ?_, fun _ h => ?_, by simp [h1, h2], ?_⟩
      · rw [h1] at h
        exact absurd h (by decide)
      · rw [h2] at h
        exact absurd h (by decide)
      · intro p content hp
        simp at hp
    · have h2b : statNotExist env (converterRun env fs tempDir up).fs
          (altOutputPath tempDir up.filename) = false := by simpa using h2
      rw [respond_second env tempDir up.filename _ h1 h2b]
      refine ⟨fun h => ?_, ?_, ?_, ?_⟩
      · rw [h1] at h
        exact absurd h (by decide)
      · intro _ _ p
        simp [sendFile_openFile_iff]
      · simp only [h1, h2b, Bool.false_eq_true, and_false, iff_false]
        exact (sendFile_response_ne env up.filename _ _).2
      · intro p content hp hl ho hsd
        have hp2 : p = altOutputPath tempDir up.filename := by
          simpa [sendFile_openFile_iff] using hp
        subst hp2
        exact hsend _ content hl ho hsd
  · have h1b : statNotExist env (converterRun env fs tempDir up).fs
        (outputPath tempDir up.filename) = false := by simpa using h1
    rw [respond_first env tempDir up.filename _ h1b]
    refine ⟨?_, fun h => ?_, ?_, ?_⟩
    · intro _ p
      simp [sendFile_openFile_iff]
    · rw [h1b] at h
      exact absurd h (by decide)
    · simp only [h1b, Bool.false_eq_true, false_and, iff_false]
      exact (sendFile_response_ne env up.filename _ _).2
    · intro p content hp hl ho hsd
      have hp2 : p = outputPath tempDir up.filename := by
        simpa [sendFile_openFile_iff] using hp
      subst hp2
      exact hsend _ content hl ho hsd

/-- A first candidate on which `os.Stat` fails for a reason other than
not-exist is kept: when nothing is stored under it, the answer is the open
failure, whatever is stored under the second candidate. -/
theorem stat_failure_keeps_first (env : Env) (fs : FS) (up : Upload) (tempDir : String)
    (hacc : supported (ext up.filename) = true) (hdir : env.mkdirTemp = some tempDir)
    (hc : env.createFails = false) (hs : env.saveFault = none)
    (hok : (converterRun env fs tempDir up).ok = true)
    (hstat : env.statFails (outputPath tempDir up.filename) = true)
    (habsent : (converterRun env fs tempDir up).fs.lookup (outputPath tempDir up.filename)
      = none) :
    (convertHandler env ⟨some up⟩ fs).response = [Action.json 500 errOpen none] := by
  rw [(handler_converted env fs up tempDir hacc hdir hc hs hok).1,
    respond_first env tempDir up.filename _ (by simp [statNotExist, hstat])]
  unfold sendFile
  split
  · rfl
  · simp [habsent]

/-- The download name of a success exit, over the handler's own input: for a
filename without a path separator, in a new staging directory and with a
converter that honours its contract, a success exit names the stem followed
by `.pdf`.  A name whose extension holds an upper-case letter never reaches
the success exit there, since neither of the two names the handler probes is
one the converter may write. -/
theorem succeeded_disposition (env : Env) (fs : FS) (up : Upload) (tempDir : String)
    (hsep : '/' ∉ up.filename.data) (hdir : env.mkdirTemp = some tempDir)
    (hfresh : freshDir fs tempDir) (hcontract : honoursContract env fs tempDir up)
    (hsucc : succeeded (convertHandler env ⟨some up⟩ fs).response = true) :
    headerValue "Content-Disposition" (convertHandler env ⟨some up⟩ fs).response =
      some ("attachment; filename=" ++ (stem up.filename ++ ".pdf")) := by
  obtain ⟨hacc, dir, hd, p, hp, hl, hr⟩ := handler_succeeded env fs up hsucc
  have hdd : dir = tempDir := by
    rw [hdir] at hd
    exact (Option.some.inj hd).symm
  subst hdd
  have hhead : headerValue "Content-Disposition" (convertHandler env ⟨some up⟩ fs).response
      = some (contentDisposition up.filename) := by
    rw [hr]
    simp [pdfHeaders, headerValue]
  rw [hhead]
  by_cases hup : (Ext up.filename).data.any Char.isUpper = true
  · exfalso
    have hne : up.filename.data ≠ [] := by
      intro h0
      have := accepted_length up.filename hacc
      simp [h0] at this
    have hf : isName up.filename.data := accepted_isName up.filename hacc hsep
    have hE4 := accepted_ext_length up.filename hacc
    have hE5 := accepted_ext_length_le up.filename hacc
    have hlen := congrArg List.length (stem_append_ext up.filename)
    simp only [List.length_append] at hlen
    have hl11 : ("_output.pdf" : String).data.length = 11 := by decide
    have hl4 : (".pdf" : String).data.length = 4 := by decide
    have hout : outputPath dir up.filename = Join dir (up.filename ++ "_output.pdf") := by
      simp [outputPath, trimSuffix_ext_upper up.filename hup]
    have halt : altOutputPath dir up.filename = Join dir (up.filename ++ ".pdf") := by
      simp [altOutputPath, base_of_no_slash up.filename hne hsep,
        trimSuffix_ext_upper up.filename hup]
    have habs1 := untouched_absent env fs dir up (up.filename ++ "_output.pdf") hfresh hcontract
      hsep hf (isName_append _ _ hsep (by decide) (by decide))
      (ne_of_length_ne _ _ (by
        simp only [String.data_append, List.length_append, hl11]
        omega))
      (ne_of_length_ne _ _ (by
        simp only [String.data_append, List.length_append, hl11]
        omega))
      (ne_of_length_ne _ _ (by
        simp only [String.data_append, List.length_append, hl11, hl4]
        omega))
    have habs2 := untouched_absent env fs dir up (up.filename ++ ".pdf") hfresh hcontract
      hsep hf (isName_append _ _ hsep (by decide) (by decide))
      (ne_of_length_ne _ _ (by
        simp only [String.data_append, List.length_append, hl4]
        omega))
      (ne_of_length_ne _ _ (by
        simp only [String.data_append, List.length_append, hl11, hl4]
        omega))
      (ne_of_length_ne _ _ (by
        simp only [String.data_append, List.length_append, hl4]
        omega))
    rcases hp with hp | hp
    · rw [hp, hout, habs1] at hl
      simp at hl
    · rw [hp, halt, habs2] at hl
      simp at hl
  · have hlow : (Ext up.filename).data.any Char.isUpper = false := by simpa using hup
    simp [contentDisposition, trimSuffix_ext_lower up.filename hlow]

theorem tmpOnly_fresh : freshDir tmpOnly "/tmp/word2pdf1" := by
  intro k hk
  unfold tmpOnly
  split
  · rename_i h
    subst h
    exact absurd hk (by decide)
  · rfl

theorem stemConverter_honours (pdf content : Bytes) :
    honoursContract (calmEnv (stemConverter pdf)) tmpOnly "/tmp/word2pdf1"
      ⟨"report.docx", content⟩ := by
  intro k hk
  right
  by_contra hne
  apply hk
  have hkey : Join "/tmp/word2pdf1" (stem "report.docx" ++ ".pdf") = "/tmp/word2pdf1/report.pdf" := by
    decide
  rw [hkey] at hne
  have hrun : (converterRun (calmEnv (stemConverter pdf)) tmpOnly "/tmp/word2pdf1"
      ⟨"report.docx", content⟩).fs
      = (stagedTable tmpOnly "/tmp/word2pdf1" ⟨"report.docx", content⟩).store
          "/tmp/word2pdf1/report.pdf" (Node.file pdf) := by
    have h1 : Join "/tmp/word2pdf1"
        (TrimSuffix (Base (inputPath "/tmp/word2pdf1" "report.docx"))
          (Ext (inputPath "/tmp/word2pdf1" "report.docx")) ++ ".pdf")
        = "/tmp/word2pdf1/report.pdf" := by decide
    simp only [converterRun, calmEnv, stemConverter, convertArgs, stagedTable, h1]
  have hclean : Clean "/tmp/word2pdf1/report.pdf" = "/tmp/word2pdf1/report.pdf" := by decide
  rw [hrun]
  simp [FS.store, hclean, hne]

/-! ## The claims -/

/-- C1: for a `POST /convert` request that carries a file field with declared
filename `f`, the handler answers 400 with the unsupported-type error if and
only if the lower-cased extension of `f`, read as the suffix starting at the
last dot of the name and empty when there is none, is not in the allow-list
`.doc`, `.docx`, `.xls`, `.xlsx`, `.ppt`, `.pptx`. -/
theorem unsupported_type_iff (env : Env) (fs : FS) (up : Upload) :
    ((convertHandler env ⟨some up⟩ fs).response = [Action.json 400 errUnsupported none] ∧
        status (convertHandler env ⟨some up⟩ fs).response = 400) ↔
      ToLower (specExt up.filename) ∉ allowList := by
  rw [← ext_allowed_iff, ← supported_iff]
  by_cases hacc : supported (ext up.filename) = true
  · simp only [hacc, not_true_eq_false, iff_false, not_and]
    intro h
    exfalso
    cases hd : env.mkdirTemp with
    | none => simp [convertHandler, hacc, hd, errMkdirTemp, errUnsupported] at h
    | some tempDir =>
      rw [handler_accepted env fs up tempDir hacc hd] at h
      exact staged_response_ne env up tempDir _ h
  · simp only [hacc, not_false_eq_true, iff_true]
    simp [convertHandler, hacc, status]

/-- C5: a request whose filename has an extension outside the allow-list
leaves the file table as it was and makes no system call: no staging
directory is created, the upload is not written and the converter is not
started. -/
theorem unsupported_leaves_no_trace (env : Env) (fs : FS) (up : Upload)
    (h : ext up.filename ∉ allowList) :
    (convertHandler env ⟨some up⟩ fs).fs = fs ∧
      (convertHandler env ⟨some up⟩ fs).calls = [] ∧
      (convertHandler env ⟨some up⟩ fs).response = [Action.json 400 errUnsupported none] := by
  have hacc : ¬ supported (ext up.filename) = true := fun hs => h ((supported_iff _).mp hs)
  simp [convertHandler, hacc]

theorem unsupported_leaves_no_trace_witness :
    ext "notes.txt" ∉ allowList ∧
      (convertHandler (calmEnv (stemConverter [37, 80, 68, 70])) ⟨some ⟨"notes.txt", [104, 105]⟩⟩
          tmpOnly).calls = [] :=
  ⟨by decide,
    (unsupported_leaves_no_trace (calmEnv (stemConverter [37, 80, 68, 70]))
      tmpOnly ⟨"notes.txt", [104, 105]⟩ (by decide)).2.1⟩

/-- C9: a request in which the field `file` is missing or cannot be read is
answered 400 with the invalid-request error; the file table is unchanged and
no system call is made, so no staging directory is created and the converter
is not started. -/
theorem missing_file_rejected (env : Env) (fs : FS) :
    (convertHandler env ⟨none⟩ fs).response = [Action.json 400 errNoFile none] ∧
      status (convertHandler env ⟨none⟩ fs).response = 400 ∧
      (convertHandler env ⟨none⟩ fs).fs = fs ∧
      (convertHandler env ⟨none⟩ fs).calls = [] :=
  ⟨rfl, rfl, rfl, rfl⟩

/-- C6: for an accepted upload that was staged, a converter that cannot be
started or exits non-zero is answered 500 with the conversion-failure error
and the captured output as details; the calls made are the creation of the
staging directory, the two calls that stage the upload, the converter run and
the removal of the directory, so no output file is probed or opened. -/
theorem converter_failure_reported (env : Env) (fs : FS) (up : Upload) (tempDir : String)
    (hacc : supported (ext up.filename) = true) (hdir : env.mkdirTemp = some tempDir)
    (hc : env.createFails = false) (hs : env.saveFault = none)
    (hfail : (converterRun env fs tempDir up).ok = false) :
    (convertHandler env ⟨some up⟩ fs).response =
        [Action.json 500 errConvert (some (converterRun env fs tempDir up).output)] ∧
      status (convertHandler env ⟨some up⟩ fs).response = 500 ∧
      (convertHandler env ⟨some up⟩ fs).calls =
        [Call.mkdirTemp (some tempDir), Call.create (inputPath tempDir up.filename),
          Call.copyIn (inputPath tempDir up.filename),
          Call.exec "libreoffice" (convertArgs tempDir (inputPath tempDir up.filename)),
          Call.removeAll tempDir] := by
  rw [handler_accepted env fs up tempDir hacc hdir, staged_converted env fs up tempDir hc hs]
  simp [hfail, status]

theorem converter_failure_reported_witness :
    (converterRun (calmEnv failingConverter) tmpOnly "/tmp/word2pdf1"
        ⟨"report.docx", [80, 75]⟩).ok = false ∧
      (convertHandler (calmEnv failingConverter) ⟨some ⟨"report.docx", [80, 75]⟩⟩
          tmpOnly).response =
        [Action.json 500 errConvert (some "Error: source file could not be loaded")] :=
  ⟨rfl,
    (converter_failure_reported (calmEnv failingConverter) tmpOnly ⟨"report.docx", [80, 75]⟩
      "/tmp/word2pdf1" (by decide) rfl rfl rfl rfl).1⟩

/-- C4: when a staging directory was created for a request, then after the
handler has returned, whatever the outside world did in between, no path that
names the staging directory or an entry below it resolves to anything. -/
theorem staging_directory_removed (env : Env) (fs : FS) (req : Request) (tempDir : String)
    (h : Call.mkdirTemp (some tempDir) ∈ (convertHandler env req fs).calls)
    (p : String) (hp : samePath p tempDir = true ∨ isInside tempDir p = true) :
    (convertHandler env req fs).fs.lookup p = none := by
  obtain ⟨up, _, _, hcase⟩ := handler_calls env fs req _ h
  rcases hcase with ⟨hc, _⟩ | ⟨dir, _, hfs, hc⟩
  · simp at hc
  · have hdir : tempDir = dir := by
      rcases hc with hc | hc | hc
      · simpa using hc
      · simp at hc
      · rcases staged_calls env up dir _ _ hc with hc | hc | hc | ⟨_, hc⟩ | ⟨_, hc⟩ | ⟨_, hc⟩ <;>
          simp at hc
    subst hdir
    rw [hfs]
    show (if samePath (Clean p) tempDir || isInside tempDir (Clean p) then none else _) = none
    rw [samePath_clean, isInside_clean]
    rcases hp with hp | hp <;> simp [hp]

theorem staging_directory_removed_witness :
    (convertHandler (calmEnv (stemConverter [37, 80, 68, 70])) ⟨some ⟨"report.docx", [80, 75]⟩⟩
        tmpOnly).fs.lookup "/tmp/word2pdf1/report.pdf" = none :=
  staging_directory_removed (calmEnv (stemConverter [37, 80, 68, 70])) tmpOnly
    ⟨some ⟨"report.docx", [80, 75]⟩⟩ "/tmp/word2pdf1" (by decide)
    "/tmp/word2pdf1/report.pdf" (Or.inr (by decide))

/-- C3: for every accepted filename, a successful response carries the
header `Content-Disposition` equal to `attachment; filename=` followed by the
filename with its extension replaced by `.pdf`.  The filename is the one the
multipart parser delivers, the staging directory is new, and the converter
keeps to its contract: it writes nothing but `<stem>_output.pdf` or
`<stem>.pdf`. -/
theorem disposition_header (env : Env) (fs : FS) (part : FilePart) (tempDir : String)
    (hdir : env.mkdirTemp = some tempDir) (hfresh : freshDir fs tempDir)
    (hcontract : honoursContract env fs tempDir ⟨FileName part, part.content⟩)
    (hsucc : succeeded (convertHandler env (FormFile (some part)) fs).response = true) :
    headerValue "Content-Disposition" (convertHandler env (FormFile (some part)) fs).response =
      some ("attachment; filename=" ++ (stem (FileName part) ++ ".pdf")) := by
  by_cases he : (FileName part).data = []
  · simp [FormFile, he, convertHandler, succeeded] at hsucc
  · have hreq : FormFile (some part) = ⟨some ⟨FileName part, part.content⟩⟩ := by
      simp [FormFile, he]
    rw [hreq] at hsucc ⊢
    have hacc := (handler_succeeded env fs _ hsucc).1
    exact succeeded_disposition env fs ⟨FileName part, part.content⟩ tempDir
      (fileName_no_slash part hacc) hdir hfresh hcontract hsucc

theorem disposition_header_witness :
    succeeded (convertHandler (calmEnv (stemConverter [37, 80, 68, 70]))
        (FormFile (some ⟨"report.docx", [80, 75]⟩)) tmpOnly).response = true ∧
      headerValue "Content-Disposition"
          (convertHandler (calmEnv (stemConverter [37, 80, 68, 70]))
            (FormFile (some ⟨"report.docx", [80, 75]⟩)) tmpOnly).response =
        some ("attachment; filename=" ++ (stem (FileName ⟨"report.docx", [80, 75]⟩) ++ ".pdf")) ∧
      "attachment; filename=" ++ (stem (FileName ⟨"report.docx", [80, 75]⟩) ++ ".pdf") =
        "attachment; filename=report.pdf" :=
  ⟨by decide,
    disposition_header (calmEnv (stemConverter [37, 80, 68, 70])) tmpOnly
      ⟨"report.docx", [80, 75]⟩ "/tmp/word2pdf1" rfl tmpOnly_fresh
      (stemConverter_honours [37, 80, 68, 70] [80, 75]) (by decide),
    by decide⟩

/-- C7 at the failing input: the upload `REPORT.DOCX` is accepted and staged
and the converter exits zero.  In a first run the converter leaves its PDF
under `REPORT_output.pdf`, the first candidate as C7 words it; in a second run
it leaves it under `REPORT.pdf`, the second candidate as C7 words it, the
first being absent.  In both runs the handler opens no file and answers 500
with the output-not-found error. -/
theorem uppercase_extension_candidates_missed :
    supported (ext "REPORT.DOCX") = true ∧
      stem "REPORT.DOCX" = "REPORT" ∧
      ((converterRun (calmEnv (outputConverter [37, 80, 68, 70])) tmpOnly "/tmp/word2pdf1"
          ⟨"REPORT.DOCX", [80, 75]⟩).ok = true ∧
        (converterRun (calmEnv (outputConverter [37, 80, 68, 70])) tmpOnly "/tmp/word2pdf1"
          ⟨"REPORT.DOCX", [80, 75]⟩).fs.lookup
            (Join "/tmp/word2pdf1" (stem "REPORT.DOCX" ++ "_output.pdf")) =
          some (Node.file [37, 80, 68, 70]) ∧
        (convertHandler (calmEnv (outputConverter [37, 80, 68, 70]))
            ⟨some ⟨"REPORT.DOCX", [80, 75]⟩⟩ tmpOnly).response =
          [Action.json 500 errNotFound none] ∧
        Call.openFile (Join "/tmp/word2pdf1" (stem "REPORT.DOCX" ++ "_output.pdf")) ∉
          (convertHandler (calmEnv (outputConverter [37, 80, 68, 70]))
            ⟨some ⟨"REPORT.DOCX", [80, 75]⟩⟩ tmpOnly).calls) ∧
      ((converterRun (calmEnv (stemConverter [37, 80, 68, 70])) tmpOnly "/tmp/word2pdf1"
          ⟨"REPORT.DOCX", [80, 75]⟩).ok = true ∧
        (converterRun (calmEnv (stemConverter [37, 80, 68, 70])) tmpOnly "/tmp/word2pdf1"
          ⟨"REPORT.DOCX", [80, 75]⟩).fs.lookup
            (Join "/tmp/word2pdf1" (stem "REPORT.DOCX" ++ "_output.pdf")) = none ∧
        (converterRun (calmEnv (stemConverter [37, 80, 68, 70])) tmpOnly "/tmp/word2pdf1"
          ⟨"REPORT.DOCX", [80, 75]⟩).fs.lookup
            (Join "/tmp/word2pdf1" (stem "REPORT.DOCX" ++ ".pdf")) =
          some (Node.file [37, 80, 68, 70]) ∧
        Call.openFile (Join "/tmp/word2pdf1" (stem "REPORT.DOCX" ++ ".pdf")) ∉
          (convertHandler (calmEnv (stemConverter [37, 80, 68, 70]))
            ⟨some ⟨"REPORT.DOCX", [80, 75]⟩⟩ tmpOnly).calls ∧
        (convertHandler (calmEnv (stemConverter [37, 80, 68, 70]))
            ⟨some ⟨"REPORT.DOCX", [80, 75]⟩⟩ tmpOnly).calls =
          [Call.mkdirTemp (some "/tmp/word2pdf1"), Call.create "/tmp/word2pdf1/REPORT.DOCX",
            Call.copyIn "/tmp/word2pdf1/REPORT.DOCX",
            Call.exec "libreoffice"
              ["--headless", "--convert-to", "pdf", "--outdir", "/tmp/word2pdf1",
                "/tmp/word2pdf1/REPORT.DOCX"],
            Call.stat "/tmp/word2pdf1/REPORT.DOCX_output.pdf",
            Call.stat "/tmp/word2pdf1/REPORT.DOCX.pdf",
            Call.removeAll "/tmp/word2pdf1"]) := by
  decide

/-- C8: whenever the handler starts a process, it is `libreoffice` with
exactly the arguments `--headless`, `--convert-to`, `pdf`, `--outdir`, `D`,
`P` in that order, where `D` is the staging directory of the request and `P`
is the path of the staged upload; and for every filename the client sends,
the name the handler receives holds no path separator and `P` is the entry of
that name directly below `D`, hence inside `D`. -/
theorem converter_arguments (env : Env) (fs : FS) (part : FilePart) (name : String)
    (args : List String)
    (h : Call.exec name args ∈ (convertHandler env (FormFile (some part)) fs).calls) :
    name = "libreoffice" ∧
      ∃ tempDir, env.mkdirTemp = some tempDir ∧
        args = ["--headless", "--convert-to", "pdf", "--outdir", tempDir,
          inputPath tempDir (FileName part)] ∧
        '/' ∉ (FileName part).data ∧
        isInside tempDir (inputPath tempDir (FileName part)) = true ∧
        cleanElems (inputPath tempDir (FileName part)).data =
          cleanElems tempDir.data ++ [(FileName part).data] := by
  obtain ⟨up, hup, hacc, hcase⟩ := handler_calls env fs _ _ h
  have hfile : up = ⟨FileName part, part.content⟩ := by
    unfold FormFile at hup
    simp only at hup
    split at hup
    · simp at hup
    · simp only [Option.some.injEq] at hup
      exact hup.symm
  subst hfile
  rcases hcase with ⟨hc, _⟩ | ⟨dir, hdir, _, hc⟩
  · simp at hc
  · have hexec : Call.exec name args =
        Call.exec "libreoffice" (convertArgs dir (inputPath dir (FileName part))) := by
      rcases hc with hc | hc | hc
      · simp at hc
      · simp at hc
      · rcases staged_calls env _ dir _ _ hc with hc | hc | hc | ⟨_, hc⟩ | ⟨_, hc⟩ | ⟨_, hc⟩
        · simp at hc
        · simp at hc
        · exact hc
        · simp at hc
        · simp at hc
        · simp at hc
    simp only [Call.exec.injEq] at hexec
    have hsep := fileName_no_slash part hacc
    have hn := accepted_isName (FileName part) hacc hsep
    exact ⟨hexec.1, dir, hdir, hexec.2, hsep, isInside_join_name dir _ hn,
      (join_name dir _ hn).2⟩

theorem converter_arguments_witness :
    Call.exec "libreoffice"
        ["--headless", "--convert-to", "pdf", "--outdir", "/tmp/word2pdf1",
          "/tmp/word2pdf1/evil.docx"] ∈
        (convertHandler (calmEnv (stemConverter [37, 80, 68, 70]))
          (FormFile (some ⟨"../evil.docx", [80, 75]⟩)) tmpOnly).calls ∧
      ∃ tempDir, (calmEnv (stemConverter [37, 80, 68, 70])).mkdirTemp = some tempDir ∧
        ["--headless", "--convert-to", "pdf", "--outdir", "/tmp/word2pdf1",
            "/tmp/word2pdf1/evil.docx"] =
          ["--headless", "--convert-to", "pdf", "--outdir", tempDir,
            inputPath tempDir (FileName ⟨"../evil.docx", [80, 75]⟩)] ∧
        '/' ∉ (FileName ⟨"../evil.docx", [80, 75]⟩).data ∧
        isInside tempDir (inputPath tempDir (FileName ⟨"../evil.docx", [80, 75]⟩)) = true ∧
        cleanElems (inputPath tempDir (FileName ⟨"../evil.docx", [80, 75]⟩)).data =
          cleanElems tempDir.data ++ [(FileName ⟨"../evil.docx", [80, 75]⟩).data] :=
  ⟨by decide,
    (converter_arguments (calmEnv (stemConverter [37, 80, 68, 70])) tmpOnly
      ⟨"../evil.docx", [80, 75]⟩ "libreoffice"
      ["--headless", "--convert-to", "pdf", "--outdir", "/tmp/word2pdf1",
        "/tmp/word2pdf1/evil.docx"] (by decide)).2⟩

/-- C10: the handler trims the lower-cased extension as a literal suffix.
For an accepted filename `f` without a path separator whose extension holds an
upper-case letter, nothing is trimmed: the two candidates are
`f+"_output.pdf"` and `f+".pdf"` below the staging directory and the
download name is `f+".pdf"`.  For an accepted `f` without a path separator
whose extension is in lower case, `f` is its stem followed by its extension
and the three names are `stem+"_output.pdf"`, `stem+".pdf"` and
`stem+".pdf"`.  In both cases the two candidates lie inside the staging
directory. -/
theorem extension_trimming (tempDir f : String) (hacc : supported (ext f) = true)
    (hsep : '/' ∉ f.data) :
    ((Ext f).data.any Char.isUpper = true →
        outputPath tempDir f = Join tempDir (f ++ "_output.pdf") ∧
          altOutputPath tempDir f = Join tempDir (f ++ ".pdf") ∧
          contentDisposition f = "attachment; filename=" ++ (f ++ ".pdf")) ∧
      ((Ext f).data.any Char.isUpper = false →
        f = stem f ++ Ext f ∧
          outputPath tempDir f = Join tempDir (stem f ++ "_output.pdf") ∧
          altOutputPath tempDir f = Join tempDir (stem f ++ ".pdf") ∧
          contentDisposition f = "attachment; filename=" ++ (stem f ++ ".pdf")) ∧
      isInside tempDir (outputPath tempDir f) = true ∧
      isInside tempDir (altOutputPath tempDir f) = true := by
  have hne : f.data ≠ [] := by
    intro h0
    have := accepted_length f hacc
    simp [h0] at this
  have hbase : Base f = f := base_of_no_slash f hne hsep
  refine ⟨?_, ?_, ?_, ?_⟩
  · intro hup
    simp [outputPath, altOutputPath, contentDisposition, hbase, trimSuffix_ext_upper f hup]
  · intro hlow
    refine ⟨?_, ?_⟩
    · apply String.ext
      rw [String.data_append]
      exact stem_append_ext f
    · simp [outputPath, altOutputPath, contentDisposition, hbase, trimSuffix_ext_lower f hlow]
  · apply isInside_join_name
    exact isName_append _ _ (trimSuffix_no_slash f _ hsep) (by decide) (by decide)
  · apply isInside_join_name
    rw [hbase]
    exact isName_append _ _ (trimSuffix_no_slash f _ hsep) (by decide) (by decide)

theorem extension_trimming_witness :
    (supported (ext "REPORT.DOCX") = true ∧ '/' ∉ "REPORT.DOCX".data ∧
        (Ext "REPORT.DOCX").data.any Char.isUpper = true) ∧
      outputPath "/tmp/word2pdf1" "REPORT.DOCX" =
        Join "/tmp/word2pdf1" ("REPORT.DOCX" ++ "_output.pdf") ∧
      altOutputPath "/tmp/word2pdf1" "REPORT.DOCX" =
        Join "/tmp/word2pdf1" ("REPORT.DOCX" ++ ".pdf") ∧
      contentDisposition "REPORT.DOCX" = "attachment; filename=" ++ ("REPORT.DOCX" ++ ".pdf") :=
  ⟨by decide,
    (extension_trimming "/tmp/word2pdf1" "REPORT.DOCX" (by decide) (by decide)).1 (by decide)⟩

/-- C2 at the failing input: the upload `REPORT.DOCX` is accepted and staged,
the converter exits zero and leaves a PDF in the staging directory under the
name `REPORT.pdf`, the stem followed by `.pdf`, and the handler answers 500
with the output-not-found error. -/
theorem uppercase_extension_not_found :
    supported (ext "REPORT.DOCX") = true ∧
      stem "REPORT.DOCX" = "REPORT" ∧
      (converterRun (calmEnv (stemConverter [37, 80, 68, 70])) tmpOnly "/tmp/word2pdf1"
        ⟨"REPORT.DOCX", [80, 75]⟩).ok = true ∧
      (converterRun (calmEnv (stemConverter [37, 80, 68, 70])) tmpOnly "/tmp/word2pdf1"
        ⟨"REPORT.DOCX", [80, 75]⟩).fs.lookup
          (Join "/tmp/word2pdf1" (stem "REPORT.DOCX" ++ ".pdf")) =
        some (Node.file [37, 80, 68, 70]) ∧
      (convertHandler (calmEnv (stemConverter [37, 80, 68, 70]))
          ⟨some ⟨"REPORT.DOCX", [80, 75]⟩⟩ tmpOnly).response =
        [Action.json 500 errNotFound none] ∧
      status (convertHandler (calmEnv (stemConverter [37, 80, 68, 70]))
          ⟨some ⟨"REPORT.DOCX", [80, 75]⟩⟩ tmpOnly).response = 500 := by
  decide

end Word2Pdf
